import Mathlib

/-!
# tronicscorp: product catalogue and user accounts

A shallow embedding of the handlers of `handlers/products.go` and
`handlers/users.go` and of the authorization middleware of `main.go`.  The
document store is consumed through the capability
interface of `dbiface/interface.go`; handlers thread the store state
explicitly.  Library behaviour the handlers rely on (hex decoding of object
identifiers, the struct-tag validator, JSON decoding onto a populated struct)
is modelled next to the code that calls it.
-/

namespace Tronics

/-! ## Object identifiers (`primitive.ObjectID`, a 12-byte array) -/

/-- A document identifier: the bytes of a `primitive.ObjectID`. -/
structure ObjectID where
  bytes : List Nat
deriving DecidableEq, Repr

/-- The zero identifier `primitive.NilObjectID`. -/
def NilObjectID : ObjectID := ⟨List.replicate 12 0⟩

instance : Inhabited ObjectID := ⟨NilObjectID⟩

/-- Value of one hexadecimal digit, both cases accepted as by `encoding/hex`. -/
def hexVal (c : Char) : Option Nat :=
  let n := c.toNat
  if 48 ≤ n ∧ n ≤ 57 then some (n - 48)
  else if 97 ≤ n ∧ n ≤ 102 then some (n - 87)
  else if 65 ≤ n ∧ n ≤ 70 then some (n - 55)
  else none

/-- Decoding of a digit sequence two digits at a time (`hex.Decode`); an odd
length or a character that is no hexadecimal digit is an error. -/
def hexDecode : List Char → Option (List Nat)
  | [] => some []
  | [_] => none
  | p :: q :: rest =>
    match hexVal p, hexVal q with
    | some a, some b =>
      match hexDecode rest with
      | some bs => some ((a * 16 + b) :: bs)
      | none => none
    | _, _ => none

/-- The function `primitive.ObjectIDFromHex`: the string must be 24 bytes long
and decode as hexadecimal; `none` stands for the returned error. -/
def ObjectIDFromHex (s : String) : Option ObjectID :=
  if s.utf8ByteSize ≠ 24 then none
  else
    match hexDecode s.data with
    | some bs => some ⟨bs⟩
    | none => none

/-! ## The product entity and its validation tags -/

/-- The struct `Product` of `handlers/products.go`.  Go `int` fields are
integers; JSON decoding keeps them inside the 64-bit range. -/
structure Product where
  ID : ObjectID
  Name : String
  Price : Int
  Currency : String
  Discount : Int
  Vendor : String
  Accessories : List String
  IsEssential : Bool
deriving DecidableEq, Repr

instance : Inhabited Product := ⟨⟨NilObjectID, "", 0, "", 0, "", [], false⟩⟩

/-- One entry of the validator's `ValidationErrors`: the struct field and the
tag that failed. -/
structure FieldError where
  Field : String
  Tag : String
deriving DecidableEq, Repr

/-- Tag `required` on a string field: the value differs from the zero value. -/
def requiredString (s : String) : Bool := s != ""

/-- Tag `required` on an integer field: the value differs from the zero value. -/
def requiredInt (n : Int) : Bool := n != 0

/-- Tag `max=k` on a string field: at most `k` runes. -/
def maxString (k : Nat) (s : String) : Bool := decide (s.length ≤ k)

/-- Tag `max=k` on an integer field: the value is at most `k`. -/
def maxInt (k : Int) (n : Int) : Bool := decide (n ≤ k)

/-- Tag `len=k` on a string field: exactly `k` runes. -/
def lenString (k : Nat) (s : String) : Bool := decide (s.length = k)

/-- Tags of one field are tried in order and the first failing tag is
reported for that field. -/
def checkTags (field : String) : List (String × Bool) → List FieldError
  | [] => []
  | (tag, ok) :: rest => if ok then checkTags field rest else [⟨field, tag⟩]

/-- The call `v.Struct(product)`: the `validate` tags of `Product`, field by
field.  `ID`, `Discount`, `Accessories` and `IsEssential` carry no tag. -/
def Product.validate (p : Product) : List FieldError :=
  checkTags "Name" [("required", requiredString p.Name), ("max", maxString 10 p.Name)]
  ++ checkTags "Price" [("required", requiredInt p.Price), ("max", maxInt 2000 p.Price)]
  ++ checkTags "Currency" [("required", requiredString p.Currency), ("len", lenString 3 p.Currency)]
  ++ checkTags "Vendor" [("required", requiredString p.Vendor)]

/-- The validator accepts when `v.Struct` returns a nil error. -/
def Product.accepted (p : Product) : Bool := p.validate.isEmpty

/-- The data-model rule as the specification words it: name non-empty and at
most 10 characters, price between 0 and 2000 inclusive, currency exactly 3
characters, vendor non-empty. -/
def Product.dataModelRule (p : Product) : Bool :=
  decide (p.Name ≠ "" ∧ p.Name.length ≤ 10 ∧ 0 ≤ p.Price ∧ p.Price ≤ 2000
    ∧ p.Currency.length = 3 ∧ p.Vendor ≠ "")

/-- A product that meets every tag; the payload of the repository's tests. -/
def googletalk : Product :=
  ⟨⟨[95, 28, 10, 1, 2, 3, 4, 5, 6, 7, 8, 9]⟩, "googletalk", 250, "INR", 0, "google",
    ["charger", "subscription"], false⟩

/-! ## Errors and values crossing the store interface -/

/-- A Go `error` value, kept as its message. -/
abbrev GoError := String

deriving instance DecidableEq for Except

/-- The struct `errorMessage` of `handlers/users.go`. -/
structure errorMessage where
  Message : String
deriving DecidableEq, Repr

/-- An `*echo.HTTPError`: status code and message body. -/
structure HTTPError where
  Code : Nat
  Message : errorMessage
deriving DecidableEq, Repr

def StatusOK : Nat := 200
def StatusBadRequest : Nat := 400
def StatusUnauthorized : Nat := 401
def StatusForbidden : Nat := 403
def StatusNotFound : Nat := 404
def StatusUnprocessableEntity : Nat := 422
def StatusInternalServerError : Nat := 500

/-- The call `echo.NewHTTPError(code, errorMessage(Message: msg))`. -/
def NewHTTPError (code : Nat) (msg : String) : HTTPError := ⟨code, ⟨msg⟩⟩

/-- Values of document fields and of filter entries (`interface` values in
a `bson.M`). -/
inductive BVal
  | oid (id : ObjectID)
  | str (s : String)
  | int (n : Int)
  | bool (b : Bool)
  | arr (xs : List String)
deriving DecidableEq, Repr

/-- A `bson.M` / `map[string]interface`: keys with their values.  Lookup
takes the first entry of a key and `mapSet` keeps keys unique. -/
abbrev Filter := List (String × BVal)

/-- The assignment `m[k] = v` on a Go map. -/
def mapSet {β : Type} : List (String × β) → String → β → List (String × β)
  | [], k, v => [(k, v)]
  | (k0, v0) :: rest, k, v =>
    if k0 = k then (k, v) :: rest else (k0, v0) :: mapSet rest k v

/-- The read `m[k]` on a Go map, `none` for a missing key. -/
def mapGet {β : Type} (m : List (String × β)) (k : String) : Option β :=
  match m.find? (fun e => e.1 = k) with
  | some e => some e.2
  | none => none

/-- The update document `bson.M("$set": doc)`. -/
inductive Update (δ : Type)
  | set (doc : δ)
deriving DecidableEq, Repr

structure InsertOneResult where
  InsertedID : BVal
deriving DecidableEq, Repr

structure UpdateResult where
  MatchedCount : Int
  ModifiedCount : Int
deriving DecidableEq, Repr

structure DeleteResult where
  DeletedCount : Int
deriving DecidableEq, Repr

/-- A `*mongo.Cursor` as far as `cursor.All` uses it: the documents decoded
into the target slice and the error `All` returns. -/
structure Cursor (δ : Type) where
  All : List δ × Option GoError

/-- A `*mongo.SingleResult` as far as `Decode` uses it. -/
inductive SingleResult (δ : Type)
  | doc (d : δ)
  | noDocuments
  | undecodable (msg : GoError)
deriving DecidableEq, Repr

/-- The error value `Decode` hands back. -/
inductive DecodeError
  | ErrNoDocuments
  | other (msg : GoError)
deriving DecidableEq, Repr

/-- The call `res.Decode(&target)`: a found document fills the target; with
an error the target keeps its value. -/
def SingleResult.Decode {δ : Type} (res : SingleResult δ) (target : δ) : δ × Option DecodeError :=
  match res with
  | .doc d => (d, none)
  | .noDocuments => (target, some .ErrNoDocuments)
  | .undecodable msg => (target, some (.other msg))

/-- The interface `dbiface.CollectionAPI`, over the state `σ` of the store
behind it and the Go type `δ` of the documents passed through it.  Every
operation returns its result together with the store state it leaves. -/
structure CollectionAPI (σ δ : Type) where
  InsertOne : σ → δ → Except GoError InsertOneResult × σ
  Find : σ → Filter → Except GoError (Cursor δ) × σ
  FindOne : σ → Filter → SingleResult δ × σ
  UpdateOne : σ → Filter → Update δ → Except GoError UpdateResult × σ
  DeleteOne : σ → Filter → Except GoError DeleteResult × σ

/-- One call made through the interface, with its arguments. -/
inductive Call (δ : Type)
  | insertOne (doc : δ)
  | find (filter : Filter)
  | findOne (filter : Filter)
  | updateOne (filter : Filter) (update : Update δ)
  | deleteOne (filter : Filter)
deriving DecidableEq, Repr

/-- The same collection with every call appended to a log, so that what a
handler hands to the store can be observed. -/
def logged {σ δ : Type} (col : CollectionAPI σ δ) : CollectionAPI (σ × List (Call δ)) δ where
  InsertOne := fun st d => ((col.InsertOne st.1 d).1, ((col.InsertOne st.1 d).2, st.2 ++ [.insertOne d]))
  Find := fun st f => ((col.Find st.1 f).1, ((col.Find st.1 f).2, st.2 ++ [.find f]))
  FindOne := fun st f => ((col.FindOne st.1 f).1, ((col.FindOne st.1 f).2, st.2 ++ [.findOne f]))
  UpdateOne := fun st f u =>
    ((col.UpdateOne st.1 f u).1, ((col.UpdateOne st.1 f u).2, st.2 ++ [.updateOne f u]))
  DeleteOne := fun st f => ((col.DeleteOne st.1 f).1, ((col.DeleteOne st.1 f).2, st.2 ++ [.deleteOne f]))

/-- Outcome of running Go code that may panic. -/
inductive Run (α : Type)
  | ret (a : α)
  | panicked (msg : String)
deriving DecidableEq, Repr

/-! ## JSON request bodies and `json.Decoder.Decode` onto a `Product` -/

/-- A JSON value as the decoder reads it from the request body. -/
inductive JSON
  | null
  | bool (b : Bool)
  | num (n : Int)
  | frac (literal : String)
  | str (s : String)
  | arr (xs : List JSON)
  | obj (kvs : List (String × JSON))

/-- The fields of `Product`, in declaration order. -/
inductive ProductField
  | ID | Name | Price | Currency | Discount | Vendor | Accessories | IsEssential
deriving DecidableEq, Repr

/-- The name in the `json` tag of each field. -/
def ProductField.jsonName : ProductField → String
  | .ID => "_id"
  | .Name => "product_name"
  | .Price => "price"
  | .Currency => "currency"
  | .Discount => "discount"
  | .Vendor => "vendor"
  | .Accessories => "accessories"
  | .IsEssential => "is_essential"

def productFields : List ProductField :=
  [.ID, .Name, .Price, .Currency, .Discount, .Vendor, .Accessories, .IsEssential]

/-- Case folding of one rune as `encoding/json` folds object keys: ASCII
letters to upper case, and the two runes whose simple fold is an ASCII letter
(U+017F long s, U+212A Kelvin sign). -/
def foldRune (c : Char) : Char :=
  let n := c.toNat
  if 97 ≤ n ∧ n ≤ 122 then Char.ofNat (n - 32)
  else if n = 383 then Char.ofNat 83
  else if n = 8490 then Char.ofNat 75
  else c

def foldName (s : String) : List Char := s.data.map foldRune

/-- The struct field an object key selects: keys match field names without
regard to case; a key that matches no field is skipped. -/
def fieldOf (key : String) : Option ProductField :=
  productFields.find? (fun f => foldName f.jsonName = foldName key)

/-- Decoding into a `string` field: a JSON string is stored, `null` leaves
the field, anything else is an `UnmarshalTypeError`. -/
def decodeString (cur : String) : JSON → String × Option GoError
  | .str s => (s, none)
  | .null => (cur, none)
  | _ => (cur, some "json: cannot unmarshal into Go struct field of type string")

/-- Decoding into an `int` field: an integer literal inside the 64-bit range
is stored, `null` leaves the field, anything else is an
`UnmarshalTypeError`. -/
def decodeInt (cur : Int) : JSON → Int × Option GoError
  | .num n =>
    if -9223372036854775808 ≤ n ∧ n ≤ 9223372036854775807 then (n, none)
    else (cur, some "json: cannot unmarshal number into Go struct field of type int")
  | .null => (cur, none)
  | _ => (cur, some "json: cannot unmarshal into Go struct field of type int")

/-- Decoding into a `bool` field. -/
def decodeBool (cur : Bool) : JSON → Bool × Option GoError
  | .bool b => (b, none)
  | .null => (cur, none)
  | _ => (cur, some "json: cannot unmarshal into Go struct field of type bool")

/-- Element-wise decoding of a JSON array into the existing slice: element
`i` is decoded into the old element `i` while there is one and into an empty
string after that, so a `null` element keeps the old element. -/
def decodeElems : List String → List JSON → List String × Option GoError
  | _, [] => ([], none)
  | old, x :: xs =>
    let here := decodeString (old.headD "") x
    let rest := decodeElems old.tail xs
    (here.1 :: rest.1, here.2 <|> rest.2)

/-- Decoding into the `[]string` field: an array replaces the slice, `null`
sets it to nil, anything else is an `UnmarshalTypeError`. -/
def decodeStrings (cur : List String) : JSON → List String × Option GoError
  | .arr xs => decodeElems cur xs
  | .null => ([], none)
  | _ => (cur, some "json: cannot unmarshal into Go struct field of type []string")

/-- The UTF-8 bytes of a character sequence. -/
def utf8Bytes (cs : List Char) : List Nat :=
  cs.flatMap (fun c => (String.utf8EncodeChar c).map UInt8.toNat)

/-- The lower-case hexadecimal digit of a value below 16. -/
def hexDigit (n : Nat) : Char := Char.ofNat (if n < 10 then 48 + n else 87 + n)

/-- One rune of a string as a JSON text writes it: the quotation mark, the
backslash and control characters are escaped. -/
def escapeRune (c : Char) : List Char :=
  let n := c.toNat
  if n = 34 then [Char.ofNat 92, Char.ofNat 34]
  else if n = 92 then [Char.ofNat 92, Char.ofNat 92]
  else if n < 32 then
    [Char.ofNat 92, Char.ofNat 117, Char.ofNat 48, Char.ofNat 48, hexDigit (n / 16), hexDigit (n % 16)]
  else [c]

/-- The text of a JSON string. -/
def renderString (s : String) : List Char :=
  Char.ofNat 34 :: s.data.flatMap escapeRune ++ [Char.ofNat 34]

mutual
/-- The text a JSON value stands for: its compact writing, without
insignificant white space. -/
def JSON.render : JSON → List Char
  | .null => "null".data
  | .bool b => if b then "true".data else "false".data
  | .num n => (toString n).data
  | .frac literal => literal.data
  | .str s => renderString s
  | .arr xs => Char.ofNat 91 :: renderElems xs ++ [Char.ofNat 93]
  | .obj kvs => Char.ofNat 123 :: renderMembers kvs ++ [Char.ofNat 125]
/-- The elements of an array, separated by commas. -/
def renderElems : List JSON → List Char
  | [] => []
  | x :: rest =>
    match rest with
    | [] => x.render
    | _ :: _ => x.render ++ Char.ofNat 44 :: renderElems rest
/-- The members of an object, separated by commas. -/
def renderMembers : List (String × JSON) → List Char
  | [] => []
  | (k, v) :: rest =>
    match rest with
    | [] => renderString k ++ Char.ofNat 58 :: v.render
    | _ :: _ => renderString k ++ Char.ofNat 58 :: v.render ++ Char.ofNat 44 :: renderMembers rest
end

/-- The call `hex.Decode(id[:], src)` as far as it gets: the bytes decoded
before the first character that is no hexadecimal digit, and whether the
whole source was decoded. -/
def hexInto : List Char → List Nat × Bool
  | [] => ([], true)
  | [_] => ([], false)
  | p :: q :: rest =>
    match hexVal p, hexVal q with
    | some a, some b => ((a * 16 + b) :: (hexInto rest).1, (hexInto rest).2)
    | _, _ => ([], false)

/-- The end of `ObjectID.UnmarshalJSON`: a string that is not 24 bytes long
is an error; otherwise the string is decoded into the identifier, and when a
character is no hexadecimal digit the bytes decoded before it stay written
and the error is returned. -/
def decodeHexInto (s : String) (old : ObjectID) : ObjectID × Option GoError :=
  if s.utf8ByteSize ≠ 24 then (old, some "cannot unmarshal into an ObjectID, the length must be 24")
  else
    match hexInto s.data with
    | (bs, true) => (⟨bs⟩, none)
    | (bs, false) => (⟨bs ++ old.bytes.drop bs.length⟩, some "encoding/hex: invalid byte")

/-- The method `ObjectID.UnmarshalJSON` of the MongoDB driver, which
`encoding/json` calls with the text of the value of `_id` and the current
identifier: the identifier after the call and the error returned.  The driver
is not part of the repository and its releases differ (on `null` and on the
empty string), so the decoder takes it as a parameter. -/
abbrev Driver := JSON → ObjectID → ObjectID × Option GoError

/-- What every release of the driver does with a string of 24 hexadecimal
digits: the identifier becomes the one the digits denote. -/
def Driver.ReadsHex (drv : Driver) : Prop :=
  ∀ (h : String) (id old : ObjectID), ObjectIDFromHex h = some id → drv (.str h) old = (id, none)

/-- The method `ObjectID.UnmarshalJSON` as in the driver releases of the
repository's date, on the compact text of the value (`JSON.render`).  A text
of exactly 12 bytes is copied into the identifier as it stands; otherwise the
value must be a string, or an object with a string under `$oid` (the last
such member counts), which `decodeHexInto` reads. -/
def driverUnmarshalJSON : Driver := fun v old =>
  if (utf8Bytes v.render).length = 12 then (⟨utf8Bytes v.render⟩, none)
  else
    match v with
    | .str s => decodeHexInto s old
    | .obj kvs =>
      match mapGet kvs.reverse "$oid" with
      | some (.str s) => decodeHexInto s old
      | _ => (old, some "not an extended JSON ObjectID")
    | _ => (old, some "not an extended JSON ObjectID")

/-- Decoding of one JSON value into field `f` of the product: the product
after it and the error it raised. -/
def decodeField (drv : Driver) (f : ProductField) (v : JSON) (p : Product) :
    Product × Option GoError :=
  match f with
  | .ID => ({ p with ID := (drv v p.ID).1 }, (drv v p.ID).2)
  | .Name => ({ p with Name := (decodeString p.Name v).1 }, (decodeString p.Name v).2)
  | .Price => ({ p with Price := (decodeInt p.Price v).1 }, (decodeInt p.Price v).2)
  | .Currency => ({ p with Currency := (decodeString p.Currency v).1 }, (decodeString p.Currency v).2)
  | .Discount => ({ p with Discount := (decodeInt p.Discount v).1 }, (decodeInt p.Discount v).2)
  | .Vendor => ({ p with Vendor := (decodeString p.Vendor v).1 }, (decodeString p.Vendor v).2)
  | .Accessories =>
    ({ p with Accessories := (decodeStrings p.Accessories v).1 }, (decodeStrings p.Accessories v).2)
  | .IsEssential =>
    ({ p with IsEssential := (decodeBool p.IsEssential v).1 }, (decodeBool p.IsEssential v).2)

/-- Decoding of the members of a JSON object onto a product, in order.  A
type error is saved (the first one is kept) and decoding goes on; an error of
`ObjectID.UnmarshalJSON` ends the decoding at once. -/
def decodeObject (drv : Driver) :
    List (String × JSON) → Product → Option GoError → Product × Option GoError
  | [], p, err => (p, err)
  | (k, v) :: rest, p, err =>
    match fieldOf k with
    | none => decodeObject drv rest p err
    | some f =>
      match decodeField drv f v p with
      | (p1, none) => decodeObject drv rest p1 err
      | (p1, some e) =>
        if f = .ID then (p1, some e) else decodeObject drv rest p1 (err <|> some e)

/-- The call `json.NewDecoder(reqBody).Decode(&product)`.  The body is the
first JSON value of the stream, `none` when the stream holds no well-formed
value.  An object is decoded member by member onto the product, `null`
leaves the product, any other value is a type error. -/
def decodeBody (drv : Driver) (reqBody : Option JSON) (product : Product) :
    Product × Option GoError :=
  match reqBody with
  | none => (product, some "EOF")
  | some (.obj kvs) => decodeObject drv kvs product none
  | some .null => (product, none)
  | some _ => (product, some "json: cannot unmarshal into Go value of type handlers.Product")

/-! ## `handlers/products.go` -/

/-- The type `url.Values`: query keys with their list of values. -/
abbrev Values := List (String × List String)

/-- The loop `for k, v := range q: filter[k] = v[0]` of `findProducts`.
Indexing an empty value list panics. -/
def rangeQuery : Values → Filter → Run Filter
  | [], filter => .ret filter
  | (k, v) :: rest, filter =>
    match v with
    | [] => .panicked "runtime error: index out of range [0] with length 0"
    | v0 :: _ => rangeQuery rest (mapSet filter k (.str v0))

/-- Lines 49 to 61 of `findProducts`: the query and the decoding of the cursor. -/
def findWith {σ : Type} (collection : CollectionAPI σ Product) (filter : Filter) (s : σ) :
    (List Product × Option HTTPError) × σ :=
  match collection.Find s filter with
  | (.error _, s1) =>
    (([], some (NewHTTPError StatusNotFound "unable to find the products")), s1)
  | (.ok cursor, s1) =>
    match cursor.All with
    | (products, some _) =>
      ((products, some (NewHTTPError StatusUnprocessableEntity "unable to parse retrieved products")), s1)
    | (products, none) => ((products, none), s1)

/-- The function `findProducts`. -/
def findProducts {σ : Type} (q : Values) (collection : CollectionAPI σ Product) (s : σ) :
    Run ((List Product × Option HTTPError) × σ) :=
  match rangeQuery q [] with
  | .panicked msg => .panicked msg
  | .ret filter =>
    match mapGet filter "_id" with
    | none => .ret (findWith collection filter s)
    | some (.str hex) =>
      match ObjectIDFromHex hex with
      | none =>
        .ret (([], some (NewHTTPError StatusInternalServerError "unable to convert to ObjectID")), s)
      | some docID => .ret (findWith collection (mapSet filter "_id" (.oid docID)) s)
    | some _ => .panicked "interface conversion: interface is not string"

/-- The function `deleteProduct`. -/
def deleteProduct {σ : Type} (id : String) (collection : CollectionAPI σ Product) (s : σ) :
    (Int × Option HTTPError) × σ :=
  match ObjectIDFromHex id with
  | none => ((0, some (NewHTTPError StatusInternalServerError "unable to convert to ObjectID")), s)
  | some docID =>
    match collection.DeleteOne s [("_id", .oid docID)] with
    | (.error _, s1) =>
      ((0, some (NewHTTPError StatusInternalServerError "unable to delete the product")), s1)
    | (.ok res, s1) => ((res.DeletedCount, none), s1)

/-- The function `modifyProduct`. -/
def modifyProduct {σ : Type} (drv : Driver) (id : String) (reqBody : Option JSON)
    (collection : CollectionAPI σ Product) (s : σ) : (Product × Option HTTPError) × σ :=
  let product : Product := default
  match ObjectIDFromHex id with
  | none =>
    ((product, some (NewHTTPError StatusInternalServerError "unable to convert to ObjectID")), s)
  | some docID =>
    let filter : Filter := [("_id", .oid docID)]
    match collection.FindOne s filter with
    | (res, s1) =>
      match res.Decode product with
      | (product, some _) =>
        ((product, some (NewHTTPError StatusUnprocessableEntity "unable to find the product")), s1)
      | (product, none) =>
        match decodeBody drv reqBody product with
        | (product, some _) =>
          ((product, some (NewHTTPError StatusUnprocessableEntity "unable to parse request payload")), s1)
        | (product, none) =>
          if product.validate ≠ [] then
            ((product, some (NewHTTPError StatusBadRequest "unable to validate the request payload")), s1)
          else
            match collection.UpdateOne s1 filter (.set product) with
            | (.error _, s2) =>
              ((product, some (NewHTTPError StatusInternalServerError "unable to update the product")), s2)
            | (.ok _, s2) => ((product, none), s2)

/-- The function `insertProducts`.  `NewObjectID` is the sequence of
identifiers `primitive.NewObjectID()` returns and `n` the number of
identifiers drawn so far; `insertedIds` is the slice built up by the loop. -/
def insertProductsLoop {σ : Type} (NewObjectID : Nat → ObjectID)
    (collection : CollectionAPI σ Product) :
    List Product → List BVal → σ → Nat → (List BVal × Option HTTPError) × σ × Nat
  | [], insertedIds, s, n => ((insertedIds, none), s, n)
  | product :: rest, insertedIds, s, n =>
    let product := { product with ID := NewObjectID n }
    match collection.InsertOne s product with
    | (.error _, s1) =>
      (([], some (NewHTTPError StatusInternalServerError "unable to insert to database")), s1, n + 1)
    | (.ok insertID, s1) =>
      insertProductsLoop NewObjectID collection rest (insertedIds ++ [insertID.InsertedID]) s1 (n + 1)

def insertProducts {σ : Type} (NewObjectID : Nat → ObjectID) (products : List Product)
    (collection : CollectionAPI σ Product) (s : σ) (n : Nat) :
    (List BVal × Option HTTPError) × σ × Nat :=
  insertProductsLoop NewObjectID collection products [] s n

/-! ## `handlers/users.go` -/

/-- The struct `User`. -/
structure User where
  Email : String
  Password : String
  IsAdmin : Bool
deriving DecidableEq, Repr

instance : Inhabited User := ⟨⟨"", "", false⟩⟩

/-- The two functions of `golang.org/x/crypto/bcrypt` the handlers call.
`GenerateFromPassword password cost` returns the hash or an error;
`CompareHashAndPassword hash password` returns `none` when the password
verifies and an error otherwise (malformed hash included). -/
structure Bcrypt where
  GenerateFromPassword : String → Nat → Except GoError String
  CompareHashAndPassword : String → String → Option GoError

/-- The function `insertUser`. -/
def insertUser {σ : Type} (bcrypt : Bcrypt) (user : User) (collection : CollectionAPI σ User)
    (s : σ) : (User × Option HTTPError) × σ :=
  let newUser : User := default
  match collection.FindOne s [("username", .str user.Email)] with
  | (res, s1) =>
    match res.Decode newUser with
    | (newUser, some (.other _)) =>
      ((newUser, some (NewHTTPError StatusUnprocessableEntity "Unable to decode retrieved user")), s1)
    | (newUser, _) =>
      if newUser.Email ≠ "" then
        ((newUser, some (NewHTTPError StatusBadRequest "User already exists")), s1)
      else
        match bcrypt.GenerateFromPassword user.Password 8 with
        | .error _ =>
          ((newUser, some (NewHTTPError StatusInternalServerError "Unable to process the password")), s1)
        | .ok hashedPassword =>
          let user := { user with Password := hashedPassword }
          match collection.InsertOne s1 user with
          | (.error _, s2) =>
            ((newUser, some (NewHTTPError StatusInternalServerError "Unable to create the user")), s2)
          | (.ok _, s2) => ((⟨user.Email, "", false⟩, none), s2)

/-! ## A reference document store

An in-memory store with the behaviour the handlers expect of the MongoDB
collections behind `CollectionAPI`: documents are kept in insertion order, a
filter matches a document when each of its entries equals the document's
field (or is an element of it, for an array field), `_id` is unique and
immutable, and an optional unique index guards `username`. -/

/-- The fields of a product other than `_id` as the `bson` tags encode them;
`accessories` is left out when empty (`omitempty`). -/
def Product.bsonBody (p : Product) : List (String × BVal) :=
  [("product_name", .str p.Name), ("price", .int p.Price), ("currency", .str p.Currency),
    ("discount", .int p.Discount), ("vendor", .str p.Vendor)]
  ++ (if p.Accessories = [] then [] else [("accessories", .arr p.Accessories)])
  ++ [("is_essential", .bool p.IsEssential)]

/-- A stored product document: its `_id` and its encoded fields. -/
def Product.stored (p : Product) : List (String × BVal) := ("_id", .oid p.ID) :: p.bsonBody

/-- A stored user document (its `_id` is not visible to the handlers). -/
def User.stored (u : User) : List (String × BVal) :=
  [("username", .str u.Email), ("password", .str u.Password), ("isadmin", .bool u.IsAdmin)]

/-- Equality match of one filter entry against a document. -/
def matchesEntry (doc : List (String × BVal)) (e : String × BVal) : Bool :=
  match mapGet doc e.1 with
  | none => false
  | some w =>
    decide (w = e.2) ||
      (match w, e.2 with
       | .arr xs, .str x => decide (x ∈ xs)
       | _, _ => false)

/-- A document matches a filter when it matches every entry. -/
def matchesFilter (doc : List (String × BVal)) (filter : Filter) : Bool :=
  filter.all (matchesEntry doc)

/-- Removal of the first element that satisfies `f`. -/
def removeFirst {δ : Type} (f : δ → Bool) : List δ → List δ
  | [] => []
  | d :: ds => if f d then ds else d :: removeFirst f ds

/-- Replacement of the first element that satisfies `f`. -/
def replaceFirst {δ : Type} (f : δ → Bool) (g : δ → δ) : List δ → List δ
  | [] => []
  | d :: ds => if f d then g d :: ds else d :: replaceFirst f g ds

/-- State of the products collection: its documents in insertion order. -/
structure ProductStore where
  docs : List Product
deriving DecidableEq, Repr

/-- The effect of `$set` with an encoded product on a stored document: every
encoded field is overwritten; `accessories` and `_id` are overwritten only
when the encoding carries them. -/
def applySet (d p : Product) : Product :=
  { ID := d.ID, Name := p.Name, Price := p.Price, Currency := p.Currency, Discount := p.Discount,
    Vendor := p.Vendor, Accessories := if p.Accessories = [] then d.Accessories else p.Accessories,
    IsEssential := p.IsEssential }

/-- The products collection.  A product whose `ID` is zero is encoded without
`_id` and receives the identifier `auto` supplies for the document count; a
duplicate `_id` is refused; `$set` may not change `_id`. -/
def productCollection (auto : Nat → ObjectID) : CollectionAPI ProductStore Product where
  InsertOne := fun s p =>
    let p := if p.ID = NilObjectID then { p with ID := auto s.docs.length } else p
    if s.docs.any (fun d => d.ID = p.ID) then (.error "E11000 duplicate key error", s)
    else (.ok ⟨.oid p.ID⟩, ⟨s.docs ++ [p]⟩)
  Find := fun s filter => (.ok ⟨(s.docs.filter (fun d => matchesFilter d.stored filter), none)⟩, s)
  FindOne := fun s filter =>
    match s.docs.find? (fun d => matchesFilter d.stored filter) with
    | some d => (.doc d, s)
    | none => (.noDocuments, s)
  UpdateOne := fun s filter u =>
    match u with
    | .set p =>
      match s.docs.find? (fun d => matchesFilter d.stored filter) with
      | none => (.ok ⟨0, 0⟩, s)
      | some d =>
        if p.ID ≠ NilObjectID ∧ p.ID ≠ d.ID then
          (.error "Performing an update on the path _id would modify the immutable field _id", s)
        else
          (.ok ⟨1, if applySet d p = d then 0 else 1⟩,
            ⟨replaceFirst (fun d => matchesFilter d.stored filter) (fun d => applySet d p) s.docs⟩)
  DeleteOne := fun s filter =>
    match s.docs.find? (fun d => matchesFilter d.stored filter) with
    | some _ => (.ok ⟨1⟩, ⟨removeFirst (fun d => matchesFilter d.stored filter) s.docs⟩)
    | none => (.ok ⟨0⟩, s)

/-- State of the users collection. -/
structure UserStore where
  docs : List User
deriving DecidableEq, Repr

/-- The users collection.  With `unique` set the collection carries the
unique index on `username` that `init` creates in `main.go`; `auto` supplies
the `_id` of each inserted document. -/
def userCollection (unique : Bool) (auto : Nat → ObjectID) : CollectionAPI UserStore User where
  InsertOne := fun s u =>
    if unique && s.docs.any (fun d => d.Email = u.Email) then (.error "E11000 duplicate key error", s)
    else (.ok ⟨.oid (auto s.docs.length)⟩, ⟨s.docs ++ [u]⟩)
  Find := fun s filter => (.ok ⟨(s.docs.filter (fun d => matchesFilter d.stored filter), none)⟩, s)
  FindOne := fun s filter =>
    match s.docs.find? (fun d => matchesFilter d.stored filter) with
    | some d => (.doc d, s)
    | none => (.noDocuments, s)
  UpdateOne := fun s filter u =>
    match u with
    | .set p =>
      match s.docs.find? (fun d => matchesFilter d.stored filter) with
      | none => (.ok ⟨0, 0⟩, s)
      | some d =>
        if unique && decide (p.Email ≠ d.Email) && s.docs.any (fun e => e.Email = p.Email) then
          (.error "E11000 duplicate key error", s)
        else
          (.ok ⟨1, if p = d then 0 else 1⟩,
            ⟨replaceFirst (fun d => matchesFilter d.stored filter) (fun _ => p) s.docs⟩)
  DeleteOne := fun s filter =>
    match s.docs.find? (fun d => matchesFilter d.stored filter) with
    | some _ => (.ok ⟨1⟩, ⟨removeFirst (fun d => matchesFilter d.stored filter) s.docs⟩)
    | none => (.ok ⟨0⟩, s)

/-- At most one stored user per email. -/
def UniqueEmails (s : UserStore) : Prop := (s.docs.map (fun u => u.Email)).Nodup

/-- No two stored products share an `_id`. -/
def UniqueIDs (s : ProductStore) : Prop := (s.docs.map (fun p => p.ID)).Nodup

/-! ## Vocabulary of the statements -/

/-- The value of field `f` of a product. -/
def Product.field (p : Product) : ProductField → BVal
  | .ID => .oid p.ID
  | .Name => .str p.Name
  | .Price => .int p.Price
  | .Currency => .str p.Currency
  | .Discount => .int p.Discount
  | .Vendor => .str p.Vendor
  | .Accessories => .arr p.Accessories
  | .IsEssential => .bool p.IsEssential

/-- The value a patch names for field `f`: that of the last member whose key
selects `f`; `none` when the patch does not name `f`. -/
def patchValue (f : ProductField) : List (String × JSON) → Option JSON
  | [] => none
  | (k, v) :: rest =>
    match patchValue f rest with
    | some w => some w
    | none => if fieldOf k = some f then some v else none

/-- The strings of a JSON array of strings. -/
def allStrings : List JSON → Option (List String)
  | [] => some []
  | .str s :: rest =>
    match allStrings rest with
    | some ss => some (s :: ss)
    | none => none
  | _ :: _ => none

/-- A JSON value read as a value of the type of field `f`: an identifier
string for `_id`, a string, an integer, a boolean, an array of strings. -/
def typedValue : ProductField → JSON → Option BVal
  | .ID, .str h =>
    match ObjectIDFromHex h with
    | some id => some (.oid id)
    | none => none
  | .Name, .str s => some (.str s)
  | .Currency, .str s => some (.str s)
  | .Vendor, .str s => some (.str s)
  | .Price, .num n => some (.int n)
  | .Discount, .num n => some (.int n)
  | .IsEssential, .bool b => some (.bool b)
  | .Accessories, .arr xs =>
    match allStrings xs with
    | some ss => some (.arr ss)
    | none => none
  | _, _ => none

/-- A well-formed identifier string: 24 hexadecimal digits. -/
def WellFormedID (s : String) : Prop := s.length = 24 ∧ ∀ c ∈ s.data, (hexVal c).isSome

/-- The products handed to `InsertOne` by `insertProducts`: each input with
its `ID` overwritten by the identifier drawn for it. -/
def stamped (NewObjectID : Nat → ObjectID) (n : Nat) (products : List Product) : List Product :=
  (products.enumFrom n).map (fun ip => { ip.2 with ID := NewObjectID ip.1 })

/-- The results the store gives when the documents are inserted one after
the other, starting from state `s`. -/
def insertReplies {σ δ : Type} (col : CollectionAPI σ δ) : σ → List δ → List (Except GoError InsertOneResult)
  | _, [] => []
  | s, d :: ds => (col.InsertOne s d).1 :: insertReplies col (col.InsertOne s d).2 ds

/-- The store state after those insertions. -/
def insertAll {σ δ : Type} (col : CollectionAPI σ δ) : σ → List δ → σ
  | s, [] => s
  | s, d :: ds => insertAll col (col.InsertOne s d).2 ds

/-- The filter the specification describes for a query map: every key with
its (first) string value, unchanged. -/
def queryFilter (q : Values) : Filter := q.map (fun kv => (kv.1, BVal.str (kv.2.headD "")))

/-- A sequence of registrations: `insertUser` for each user in turn. -/
def registerAll {σ : Type} (bcrypt : Bcrypt) (collection : CollectionAPI σ User) : List User → σ → σ
  | [], s => s
  | u :: us, s => registerAll bcrypt collection us (insertUser bcrypt u collection s).2

/-- The values of the members of a patch that name field `f`, in order. -/
def patchValues (f : ProductField) (kvs : List (String × JSON)) : List JSON :=
  (kvs.filter (fun kv => fieldOf kv.1 = some f)).map Prod.snd

/-- A JSON value and a field value that are the same value: the same string,
integer or boolean, the identifier the string of hexadecimal digits denotes,
the same array of strings.  `null` is no field value. -/
def sameValue : JSON → BVal → Bool
  | .str s, .str t => decide (s = t)
  | .str h, .oid id => decide (ObjectIDFromHex h = some id)
  | .num n, .int m => decide (n = m)
  | .bool b, .bool c => decide (b = c)
  | .arr xs, .arr ss => decide (allStrings xs = some ss)
  | _, _ => false

/-! ## Sample data for the worked examples -/

/-- Identifiers the reference store assigns to documents inserted without one. -/
def autoID (n : Nat) : ObjectID := ⟨[0, 0, 0, 0, 0, 0, 0, 0, 0, 0, 0, n + 1]⟩

/-- Identifiers drawn by `primitive.NewObjectID()` in the examples. -/
def sampleID (n : Nat) : ObjectID := ⟨[95, 28, 10, 1, 2, 3, 4, 5, 6, 7, 8, 9 + n]⟩

/-- The test product after the update of the test `put product`. -/
def usd : Product := { googletalk with Currency := "USD" }

/-- The test product with price zero. -/
def freebie : Product := { googletalk with Price := 0 }

/-- The test product with a negative price. -/
def refund : Product := { googletalk with Price := -5 }

/-- The test product with its first accessory only. -/
def chargerOnly : Product := { googletalk with Accessories := ["charger"] }

/-- The test product without accessories. -/
def bare : Product := { googletalk with Accessories := [] }

/-- The test product under another identifier. -/
def moved : Product := { googletalk with ID := ⟨[95, 28, 10, 1, 2, 3, 4, 5, 6, 7, 8, 0]⟩ }

/-- A stand-in for bcrypt in the examples: the hash is the password behind a
fixed marker. -/
def toyBcrypt : Bcrypt where
  GenerateFromPassword := fun pw _ => .ok ("$2a$08$" ++ pw)
  CompareHashAndPassword := fun hash pw => if hash = "$2a$08$" ++ pw then none else some "mismatch"

/-- The user of the repository's tests. -/
def krunal : User := ⟨"krunal.shimpi@gmail.com", "abc12345", false⟩

/-- The document the store holds for that user after registration. -/
def krunalStored : User := ⟨"krunal.shimpi@gmail.com", "$2a$08$abc12345", false⟩

/-! ## Authentication and tokens (`handlers/users.go`, `main.go`) -/

/-- The function `isCredValid`: any error of the comparison, a malformed
stored hash included, counts as invalid. -/
def isCredValid (bcrypt : Bcrypt) (givenPwd storedPwd : String) : Bool :=
  match bcrypt.CompareHashAndPassword storedPwd givenPwd with
  | some _ => false
  | none => true

/-- The function `authenticateUser`. -/
def authenticateUser {σ : Type} (bcrypt : Bcrypt) (reqUser : User)
    (collection : CollectionAPI σ User) (s : σ) : (User × Option HTTPError) × σ :=
  let storedUser : User := default
  match collection.FindOne s [("username", .str reqUser.Email)] with
  | (res, s1) =>
    match res.Decode storedUser with
    | (storedUser, some (.other _)) =>
      ((storedUser, some (NewHTTPError StatusUnprocessableEntity "Unable to decode retrieved user")), s1)
    | (storedUser, some .ErrNoDocuments) =>
      ((storedUser, some (NewHTTPError StatusNotFound "User does not exist")), s1)
    | (storedUser, none) =>
      if !isCredValid bcrypt reqUser.Password storedUser.Password then
        ((storedUser, some (NewHTTPError StatusUnauthorized "Credentials invalid")), s1)
      else ((⟨storedUser.Email, "", false⟩, none), s1)

/-- The struct `config.Properties`, as `cleanenv.ReadEnv` fills it. -/
structure Properties where
  Port : String
  Host : String
  DBHost : String
  DBPort : String
  DBName : String
  ProductCollection : String
  UsersCollection : String
  JwtTokenSecret : String
deriving DecidableEq, Repr

/-- The `env-default` values of `config.Properties`. -/
def defaultProperties : Properties :=
  ⟨"8080", "localhost", "localhost", "27017", "tronics", "products", "users", "abrakadabra"⟩

/-- A value held in a `jwt.MapClaims`. -/
inductive ClaimValue
  | bool (b : Bool)
  | str (s : String)
  | num (n : Int)
  | other
deriving DecidableEq, Repr

/-- The type `jwt.MapClaims`. -/
abbrev MapClaims := List (String × ClaimValue)

/-- The two operations of `github.com/dgrijalva/jwt-go` the code calls, for
the HS256 method.  `SignedString claims secret` returns the signed token or
an error; `ParseWithClaims token secret` returns the claims of a token whose
signature and validity period verify, and an error otherwise. -/
structure JWT where
  SignedString : MapClaims → String → Except GoError String
  ParseWithClaims : String → String → Except GoError MapClaims

/-- Lines 50 to 53 of `createToken`: the claim set of a user at clock time
`now` (Unix seconds); the token expires 15 minutes later. -/
def User.claims (u : User) (now : Int) : MapClaims :=
  mapSet (mapSet (mapSet [] "authorized" (.bool u.IsAdmin)) "user_id" (.str u.Email))
    "exp" (.num (now + 15 * 60))

/-- The method `User.createToken`; `prop` is the configuration after
`cleanenv.ReadEnv`. -/
def User.createToken (jwt : JWT) (prop : Properties) (now : Int) (u : User) : Except GoError String :=
  let claims := u.claims now
  match jwt.SignedString claims prop.JwtTokenSecret with
  | .error err => .error err
  | .ok token => .ok token

/-- What the handlers depend on besides the store: bcrypt, the JWT library,
the configuration, the clock and the `email` check of the validator. -/
structure Runtime where
  bcrypt : Bcrypt
  jwt : JWT
  prop : Properties
  now : Int
  isEmail : String → Bool

/-- The call `c.Validate(user)` with the `validate` tags of `User`:
`required,email` on the email and `required,min=8,max=300` on the password. -/
def User.validate (isEmail : String → Bool) (u : User) : List FieldError :=
  checkTags "Email" [("required", requiredString u.Email), ("email", isEmail u.Email)]
  ++ checkTags "Password" [("required", requiredString u.Password),
      ("min", decide (8 ≤ u.Password.length)), ("max", maxString 300 u.Password)]

/-- The value handed to `c.JSON` as the response body. -/
inductive ResponseBody
  | message (m : errorMessage)
  | user (u : User)
deriving DecidableEq, Repr

/-- The HTTP response a handler writes: status, the `x-auth-token` response
header when set, and the body. -/
structure Response where
  Code : Nat
  AuthToken : Option String
  Body : ResponseBody
deriving DecidableEq, Repr

/-- The handler `UsersHandler.AuthnUser`; `bound` is the outcome of
`c.Bind(&user)` on the request. -/
def AuthnUser {σ : Type} (rt : Runtime) (bound : Except GoError User)
    (collection : CollectionAPI σ User) (s : σ) : Response × σ :=
  match bound with
  | .error _ =>
    (⟨StatusUnprocessableEntity, none, .message ⟨"Unable to parse the request payload."⟩⟩, s)
  | .ok user =>
    if user.validate rt.isEmail ≠ [] then
      (⟨StatusBadRequest, none, .message ⟨"Unable to validate request payload"⟩⟩, s)
    else
      match authenticateUser rt.bcrypt user collection s with
      | ((_, some httpError), s1) => (⟨httpError.Code, none, .message httpError.Message⟩, s1)
      | ((user, none), s1) =>
        match user.createToken rt.jwt rt.prop rt.now with
        | .error _ =>
          (⟨StatusInternalServerError, none, .message ⟨"Unable to generate the token"⟩⟩, s1)
        | .ok token => (⟨StatusOK, some ("Bearer " ++ token), .user ⟨user.Email, "", false⟩⟩, s1)

/-- The pieces of a character sequence between occurrences of `sep`. -/
def splitChars (sep : Char) : List Char → List Char → List String
  | [], cur => [String.mk cur.reverse]
  | c :: cs, cur =>
    if c = sep then String.mk cur.reverse :: splitChars sep cs [] else splitChars sep cs (c :: cur)

/-- The call `strings.Split(s, sep)` for a one-character separator: one more
piece than there are separators. -/
def stringsSplit (s : String) (sep : Char) : List String := splitChars sep s.data []

/-- The request as the middleware reads it: the value of
`c.Request().Header.Get("x-auth-token")`, empty when the header is absent. -/
structure Context where
  AuthToken : String
deriving DecidableEq, Repr

/-- An `echo.HandlerFunc` acting on a world of type `τ`: it returns its error
and the world it leaves, or panics. -/
abbrev HandlerFunc (τ : Type) := Context → τ → Run (Option HTTPError × τ)

/-- The function `adminMiddleware` of `main.go`.  Indexing the pieces of the
header at 1 panics when there is no second piece, and the type assertion
`claims["authorized"].(bool)` panics when the claim is missing or no
boolean. -/
def adminMiddleware {τ : Type} (jwt : JWT) (cfg : Properties) (next : HandlerFunc τ) :
    HandlerFunc τ :=
  fun c w =>
    let hToken := c.AuthToken
    match (stringsSplit hToken (Char.ofNat 32))[1]? with
    | none => .panicked "runtime error: index out of range [1]"
    | some token =>
      match jwt.ParseWithClaims token cfg.JwtTokenSecret with
      | .error _ => .ret (some (NewHTTPError StatusInternalServerError "Unable to parse token"), w)
      | .ok claims =>
        match mapGet claims "authorized" with
        | some (.bool authorized) =>
          if !authorized then .ret (some (NewHTTPError StatusForbidden "Not authorized"), w)
          else next c w
        | _ => .panicked "interface conversion: interface is not bool"

/-- A wrapped operation that counts its invocations and returns no error. -/
def countingHandler : HandlerFunc Nat := fun _ w => .ret (none, w + 1)

/-- Two user stores with the same emails and passwords, document by
document; they may differ in `isadmin` only. -/
def SameUpToAdmin (st1 st2 : UserStore) : Prop :=
  st1.docs.map (fun d => (d.Email, d.Password)) = st2.docs.map (fun d => (d.Email, d.Password))

/-- A stand-in for the JWT library in the examples: a token is the secret
followed by a rendering of the claims `authorized` and `user_id`, and only
four token strings verify, under the default secret. -/
def toyJWT : JWT where
  SignedString := fun claims secret =>
    .ok (secret ++ "."
      ++ (match mapGet claims "authorized" with
          | some (.bool true) => "admin"
          | _ => "plain")
      ++ "."
      ++ (match mapGet claims "user_id" with
          | some (.str e) => e
          | _ => ""))
  ParseWithClaims := fun token secret =>
    if secret ≠ "abrakadabra" then .error "signature is invalid"
    else if token = "abrakadabra.admin.root@tronics.io" then
      .ok [("authorized", .bool true), ("user_id", .str "root@tronics.io"), ("exp", .num 1900)]
    else if token = "abrakadabra.plain.krunal.shimpi@gmail.com" then
      .ok [("authorized", .bool false), ("user_id", .str "krunal.shimpi@gmail.com"), ("exp", .num 1900)]
    else if token = "abrakadabra.noclaim" then
      .ok [("user_id", .str "root@tronics.io"), ("exp", .num 1900)]
    else if token = "abrakadabra.textclaim" then
      .ok [("authorized", .str "true"), ("user_id", .str "root@tronics.io"), ("exp", .num 1900)]
    else .error "token contains an invalid number of segments"

/-- The runtime of the examples: clock at 1000, every string with an `@`
passes the email check. -/
def toyRuntime : Runtime := ⟨toyBcrypt, toyJWT, defaultProperties, 1000, fun e => e.data.contains (Char.ofNat 64)⟩

/-- An administrator as stored after registration with `isadmin` set. -/
def rootStored : User := ⟨"root@tronics.io", "$2a$08$hunter2hunter2", true⟩

/-- The same account stored without the admin flag. -/
def rootPlain : User := ⟨"root@tronics.io", "$2a$08$hunter2hunter2", false⟩

/-- The credentials that account presents. -/
def rootRequest : User := ⟨"root@tronics.io", "hunter2hunter2", false⟩

/-- The JWT middleware of echo as `main` configures it (`TokenLookup`
`header:x-auth-token`, scheme `Bearer`): the header must be longer than the
scheme plus one byte and start with the scheme, the token is what follows
the byte after the scheme, whatever that byte is, and must verify under the
signing key.  A header it refuses is answered with HTTP 400, a token that
does not verify with HTTP 401; otherwise the next handler runs. -/
def jwtMiddleware {τ : Type} (jwt : JWT) (cfg : Properties) (next : HandlerFunc τ) :
    HandlerFunc τ :=
  fun c w =>
    let auth := c.AuthToken
    if 7 < auth.utf8ByteSize ∧ auth.data.take 6 = "Bearer".data then
      match auth.data.drop 6 with
      | [] => .ret (some (NewHTTPError StatusBadRequest "missing or malformed jwt"), w)
      | sep :: token =>
        if sep.utf8Size ≠ 1 then
          .ret (some (NewHTTPError StatusUnauthorized "invalid or expired jwt"), w)
        else
          match jwt.ParseWithClaims (String.mk token) cfg.JwtTokenSecret with
          | .error _ => .ret (some (NewHTTPError StatusUnauthorized "invalid or expired jwt"), w)
          | .ok _ => next c w
    else .ret (some (NewHTTPError StatusBadRequest "missing or malformed jwt"), w)

/-- The middleware chain `main` registers on `DELETE /products/:id`: the JWT
middleware first, then `adminMiddleware`, then the handler. -/
def deleteRoute {τ : Type} (jwt : JWT) (cfg : Properties) (next : HandlerFunc τ) :
    HandlerFunc τ :=
  jwtMiddleware jwt cfg (adminMiddleware jwt cfg next)

/-- A header whose scheme is followed by a tab in place of the space, before
a token that verifies and is authorized. -/
def tabHeader : String := "Bearer\tabrakadabra.admin.root@tronics.io"

/-- The stored test product after a patch that sets `_id` to the string
`abcdefghij`: the identifier holds the 12 bytes of the quoted text. -/
def rawID : ObjectID := ⟨[34, 97, 98, 99, 100, 101, 102, 103, 104, 105, 106, 34]⟩

/-! ## Lemmas and theorems -/

/-! ### Product validation -/

theorem checkTags_nil_iff (f : String) (ts : List (String × Bool)) :
    checkTags f ts = [] ↔ ∀ t ∈ ts, t.2 = true := by
  induction ts with
  | nil => simp [checkTags]
  | cons t rest ih =>
    obtain ⟨tag, ok⟩ := t
    cases ok <;> simp [checkTags, ih]

theorem Product.accepted_iff (p : Product) :
    p.accepted = true ↔
      (p.Name ≠ "" ∧ p.Name.length ≤ 10 ∧ p.Price ≠ 0 ∧ p.Price ≤ 2000
        ∧ p.Currency.length = 3 ∧ p.Vendor ≠ "") := by
  simp only [Product.accepted, Product.validate, List.isEmpty_iff, List.append_eq_nil,
    checkTags_nil_iff]
  simp [requiredString, requiredInt, maxString, maxInt, lenString]
  constructor
  · rintro ⟨⟨⟨⟨h1, h2⟩, h3, h4⟩, h5, h6⟩, h7⟩
    exact ⟨h1, h2, h3, h4, h6, h7⟩
  · rintro ⟨h1, h2, h3, h4, h6, h7⟩
    refine ⟨⟨⟨⟨h1, h2⟩, h3, h4⟩, ?_, h6⟩, h7⟩
    intro h
    rw [h] at h6
    simp at h6

/-- C3, as amended: the validator accepts a product if and only if its name
is non-empty and has at most 10 characters, its price is non-zero and at most
2000 (a negative price passes, zero does not), its currency has exactly 3
characters and its vendor is non-empty; the identifier, discount,
accessories and is_essential never influence the verdict. -/
theorem product_validation_rule (p : Product) :
    (p.accepted = true ↔
      (p.Name ≠ "" ∧ p.Name.length ≤ 10 ∧ p.Price ≠ 0 ∧ p.Price ≤ 2000
        ∧ p.Currency.length = 3 ∧ p.Vendor ≠ ""))
    ∧ (∀ (i : ObjectID) (d : Int) (a : List String) (e : Bool),
        ({ p with ID := i, Discount := d, Accessories := a, IsEssential := e } : Product).accepted
          = p.accepted) :=
  ⟨Product.accepted_iff p, fun _ _ _ _ => rfl⟩

/-- C3, as stated, fails: a product with price 0 meets the data-model rule
and is rejected by the validator, and a product with price -5 violates the
rule and is accepted. -/
theorem product_validation_rule_counterexample :
    (freebie.dataModelRule = true ∧ freebie.accepted = false
      ∧ freebie.validate = [⟨"Price", "required"⟩])
    ∧ (refund.dataModelRule = false ∧ refund.accepted = true) := by
  decide

/-! ### Identifier strings -/

theorem hexVal_utf8Size (c : Char) (h : (hexVal c).isSome) : c.utf8Size = 1 := by
  have hc : c.toNat ≤ 127 := by
    unfold hexVal at h
    simp only at h
    split at h
    · omega
    · split at h
      · omega
      · split at h
        · omega
        · simp at h
  have h1 : c.val ≤ UInt32.ofNatCore 127 (by decide) := by
    show c.val.toNat ≤ 127
    exact hc
  unfold Char.utf8Size
  simp only
  rw [if_pos h1]

theorem hexVal_lt (c : Char) (a : Nat) (h : hexVal c = some a) : a < 16 := by
  unfold hexVal at h
  simp only at h
  split at h
  · simp at h; omega
  · split at h
    · simp at h; omega
    · split at h
      · simp at h; omega
      · simp at h

theorem utf8_go_of_hex (cs : List Char) (h : ∀ c ∈ cs, (hexVal c).isSome) :
    String.utf8ByteSize.go cs = cs.length := by
  induction cs with
  | nil => rfl
  | cons c cs ih =>
    simp only [String.utf8ByteSize.go, List.length_cons]
    rw [ih (fun c hc => h c (List.mem_cons_of_mem _ hc)), hexVal_utf8Size c (h c (List.mem_cons_self _ _))]

theorem hexDecode_some : ∀ (cs : List Char) (bs : List Nat), hexDecode cs = some bs →
    cs.length = 2 * bs.length ∧ (∀ c ∈ cs, (hexVal c).isSome) ∧ (∀ b ∈ bs, b < 256)
  | [], bs, h => by
    simp [hexDecode] at h; subst h; simp
  | [_], bs, h => by simp [hexDecode] at h
  | p :: q :: rest, bs, h => by
    unfold hexDecode at h
    cases hp : hexVal p with
    | none => simp [hp] at h
    | some a =>
      cases hq : hexVal q with
      | none => simp [hp, hq] at h
      | some b =>
        cases hr : hexDecode rest with
        | none => simp [hp, hq, hr] at h
        | some bs1 =>
          simp [hp, hq, hr] at h
          subst h
          have ih := hexDecode_some rest bs1 hr
          have ha := hexVal_lt p a hp
          have hb := hexVal_lt q b hq
          refine ⟨by simp [ih.1]; omega, ?_, ?_⟩
          · intro c hc
            simp at hc
            rcases hc with rfl | rfl | hc
            · simp [hp]
            · simp [hq]
            · exact ih.2.1 c hc
          · intro x hx
            simp at hx
            rcases hx with rfl | hx
            · omega
            · exact ih.2.2 x hx

theorem hexDecode_of_hex : ∀ (n : Nat) (cs : List Char), cs.length = 2 * n →
    (∀ c ∈ cs, (hexVal c).isSome) → (hexDecode cs).isSome
  | 0, cs, hl, _ => by
    have : cs = [] := List.length_eq_zero.mp (by omega)
    subst this; simp [hexDecode]
  | n + 1, cs, hl, hh => by
    match cs, hl, hh with
    | p :: q :: rest, hl, hh =>
      have hp := hh p (by simp)
      have hq := hh q (by simp)
      have hr := hexDecode_of_hex n rest (by simp at hl; omega)
        (fun c hc => hh c (by simp [hc]))
      unfold hexDecode
      obtain ⟨a, ha⟩ := Option.isSome_iff_exists.mp hp
      obtain ⟨b, hb⟩ := Option.isSome_iff_exists.mp hq
      obtain ⟨bs, hbs⟩ := Option.isSome_iff_exists.mp hr
      simp [ha, hb, hbs]
    | [_], hl, _ => simp at hl; omega
    | [], hl, _ => simp at hl

theorem ObjectIDFromHex_isSome_iff (s : String) :
    (ObjectIDFromHex s).isSome ↔ WellFormedID s := by
  obtain ⟨cs⟩ := s
  unfold ObjectIDFromHex WellFormedID
  simp only [String.utf8ByteSize, String.length]
  constructor
  · intro h
    split at h
    · simp at h
    · rename_i hsz
      cases hd : hexDecode cs with
      | none => simp [hd] at h
      | some bs =>
        have := hexDecode_some cs bs hd
        refine ⟨?_, this.2.1⟩
        rw [utf8_go_of_hex cs this.2.1] at hsz
        omega
  · rintro ⟨hl, hh⟩
    rw [utf8_go_of_hex cs hh]
    simp only [hl, ne_eq, not_true_eq_false, if_false]
    have := hexDecode_of_hex 12 cs (by omega) hh
    obtain ⟨bs, hbs⟩ := Option.isSome_iff_exists.mp this
    simp [hbs]

theorem ObjectIDFromHex_bytes (s : String) (o : ObjectID) (h : ObjectIDFromHex s = some o) :
    o.bytes.length = 12 ∧ ∀ b ∈ o.bytes, b < 256 := by
  have hw := (ObjectIDFromHex_isSome_iff s).mp (by simp [h])
  unfold ObjectIDFromHex at h
  split at h
  · simp at h
  · cases hd : hexDecode s.data with
    | none => simp [hd] at h
    | some bs =>
      simp [hd] at h
      subst h
      have := hexDecode_some s.data bs hd
      have hl : s.data.length = 24 := hw.1
      exact ⟨by simp; omega, this.2.2⟩

/-! ### Decoding of a patch onto a product -/

theorem hexInto_of_hexDecode : ∀ (cs : List Char) (bs : List Nat), hexDecode cs = some bs →
    hexInto cs = (bs, true)
  | [], bs, h => by
    simp [hexDecode] at h; subst h; rfl
  | [_], bs, h => by simp [hexDecode] at h
  | p :: q :: rest, bs, h => by
    unfold hexDecode at h
    cases hp : hexVal p with
    | none => simp [hp] at h
    | some a =>
      cases hq : hexVal q with
      | none => simp [hp, hq] at h
      | some b =>
        cases hr : hexDecode rest with
        | none => simp [hp, hq, hr] at h
        | some bs1 =>
          simp [hp, hq, hr] at h
          subst h
          have ih := hexInto_of_hexDecode rest bs1 hr
          simp [hexInto, hp, hq, ih]

theorem utf8Bytes_length_ge (cs : List Char) : cs.length ≤ (utf8Bytes cs).length := by
  induction cs with
  | nil => simp [utf8Bytes]
  | cons c cs ih =>
    have hc : 1 ≤ (String.utf8EncodeChar c).length := by
      rw [String.length_utf8EncodeChar]
      exact Char.utf8Size_pos c
    simp only [utf8Bytes, List.flatMap_cons, List.length_append, List.length_map,
      List.length_cons] at ih ⊢
    omega

theorem escaped_length_ge (cs : List Char) : cs.length ≤ (cs.flatMap escapeRune).length := by
  induction cs with
  | nil => simp
  | cons c cs ih =>
    have hc : 1 ≤ (escapeRune c).length := by
      unfold escapeRune
      simp only
      split
      · simp
      · split
        · simp
        · split <;> simp
    simp only [List.flatMap_cons, List.length_append, List.length_cons]
    omega

/-- The reference driver reads a string of 24 hexadecimal digits as the
identifier the digits denote. -/
theorem driverUnmarshalJSON_readsHex : Driver.ReadsHex driverUnmarshalJSON := by
  intro h id old hh
  have hw := (ObjectIDFromHex_isSome_iff h).mp (by simp [hh])
  have hlen : (utf8Bytes (JSON.render (.str h))).length ≠ 12 := by
    have h1 := utf8Bytes_length_ge (JSON.render (.str h))
    have h2 := escaped_length_ge h.data
    have h3 : h.data.length = 24 := hw.1
    have h4 : (JSON.render (.str h)).length = (h.data.flatMap escapeRune).length + 2 := by
      simp [JSON.render, renderString]
    omega
  unfold ObjectIDFromHex at hh
  split at hh
  · simp at hh
  · rename_i hsz
    cases hd : hexDecode h.data with
    | none => simp [hd] at hh
    | some bs =>
      simp [hd] at hh
      subst hh
      simp only [driverUnmarshalJSON, hlen, if_false, decodeHexInto, hsz,
        hexInto_of_hexDecode h.data bs hd]

theorem decodeObject_saved (drv : Driver) (kvs : List (String × JSON)) (p : Product)
    (e : GoError) : (decodeObject drv kvs p (some e)).2 ≠ none := by
  induction kvs generalizing p e with
  | nil => simp [decodeObject]
  | cons kv rest ih =>
    obtain ⟨k, v⟩ := kv
    unfold decodeObject
    cases hf : fieldOf k with
    | none => simpa using ih p e
    | some f =>
      simp only
      rcases hd : decodeField drv f v p with ⟨p1, _ | e1⟩
      · simpa using ih p1 e
      · by_cases hid : f = .ID
        · simp [hid]
        · simp only [hid, if_false]
          exact ih p1 e

/-- A successful decoding of an object is a successful decoding of its first
member followed by one of the remaining members. -/
theorem decodeObject_step (drv : Driver) (k : String) (v : JSON) (rest : List (String × JSON))
    (p r : Product) (err : Option GoError)
    (h : decodeObject drv ((k, v) :: rest) p err = (r, none)) :
    (fieldOf k = none → decodeObject drv rest p err = (r, none))
      ∧ (∀ f, fieldOf k = some f →
          (decodeField drv f v p).2 = none
            ∧ decodeObject drv rest (decodeField drv f v p).1 err = (r, none)) := by
  unfold decodeObject at h
  refine ⟨fun hn => ?_, fun f hf => ?_⟩
  · simpa [hn] using h
  · simp only [hf] at h
    rcases hd : decodeField drv f v p with ⟨p1, _ | e1⟩
    · simp only [hd] at h
      exact ⟨rfl, h⟩
    · simp only [hd] at h
      exfalso
      by_cases hid : f = .ID
      · simp [hid] at h
      · simp only [hid, if_false] at h
        cases err with
        | none =>
          have := decodeObject_saved drv rest p1 e1
          simp only [show (none <|> some e1) = some e1 from rfl] at h
          rw [h] at this; exact this rfl
        | some e0 =>
          have := decodeObject_saved drv rest p1 e0
          simp only [show (some e0 <|> some e1) = some e0 from rfl] at h
          rw [h] at this; exact this rfl

theorem decodeElems_allStrings (old : List String) (xs : List JSON) (ss : List String)
    (h : allStrings xs = some ss) : decodeElems old xs = (ss, none) := by
  induction xs generalizing old ss with
  | nil => simp [allStrings] at h; simp [decodeElems, h]
  | cons x rest ih =>
    cases x <;> simp [allStrings] at h
    rename_i s
    cases hr : allStrings rest with
    | none => simp [hr] at h
    | some ts =>
      simp [hr] at h
      subst h
      simp [decodeElems, decodeString, ih old.tail ts hr]

theorem decodeElems_length (old : List String) (xs : List JSON) :
    (decodeElems old xs).1.length = xs.length := by
  induction xs generalizing old with
  | nil => simp [decodeElems]
  | cons x rest ih => simp [decodeElems, ih]

theorem decodeElems_str (old : List String) (xs : List JSON) (i : Nat) (s : String)
    (h : xs[i]? = some (.str s)) : (decodeElems old xs).1[i]? = some s := by
  induction xs generalizing old i with
  | nil => simp at h
  | cons x rest ih =>
    cases i with
    | zero =>
      simp only [List.getElem?_cons_zero, Option.some.injEq] at h
      subst h
      simp [decodeElems, decodeString]
    | succ i =>
      simp only [List.getElem?_cons_succ] at h
      simp only [decodeElems, List.getElem?_cons_succ]
      exact ih old.tail i h

theorem decodeElems_null (old : List String) (xs : List JSON) (i : Nat)
    (h : xs[i]? = some .null) : (decodeElems old xs).1[i]? = some (old.getD i "") := by
  induction xs generalizing old i with
  | nil => simp at h
  | cons x rest ih =>
    cases i with
    | zero =>
      simp only [List.getElem?_cons_zero, Option.some.injEq] at h
      subst h
      cases old <;> simp [decodeElems, decodeString]
    | succ i =>
      simp only [List.getElem?_cons_succ] at h
      simp only [decodeElems, List.getElem?_cons_succ]
      rw [ih old.tail i h]
      cases old <;> simp

theorem decodeField_frame (drv : Driver) (f g : ProductField) (v : JSON) (p : Product)
    (h : g ≠ f) : (decodeField drv g v p).1.field f = p.field f := by
  cases g <;> cases f <;> first | exact absurd rfl h | (simp [decodeField, Product.field])

theorem decodeField_congr (drv : Driver) (f : ProductField) (v : JSON) (p q : Product)
    (h : q.field f = p.field f) :
    (decodeField drv f v q).1.field f = (decodeField drv f v p).1.field f := by
  cases f <;> simp only [Product.field, BVal.oid.injEq, BVal.str.injEq, BVal.int.injEq,
    BVal.arr.injEq, BVal.bool.injEq] at h <;> simp [decodeField, Product.field, h]

theorem decodeField_typed (drv : Driver) (f : ProductField) (v : JSON) (p p1 : Product)
    (x : BVal) (hdrv : f = .ID → drv.ReadsHex)
    (h : decodeField drv f v p = (p1, none)) (hx : typedValue f v = some x) : p1.field f = x := by
  cases f <;> cases v <;> simp [typedValue] at hx
  case ID.str s =>
    cases ho : ObjectIDFromHex s with
    | none => simp [ho] at hx
    | some id =>
      simp [ho] at hx
      have hr := hdrv rfl s id p.ID ho
      simp [decodeField, hr] at h
      subst h; subst hx; rfl
  case Name.str s =>
    simp [decodeField, decodeString] at h
    subst h; subst hx; rfl
  case Price.num n =>
    simp only [decodeField, decodeInt] at h
    split at h
    · simp at h; subst h; subst hx; rfl
    · simp at h
  case Currency.str s =>
    simp [decodeField, decodeString] at h
    subst h; subst hx; rfl
  case Discount.num n =>
    simp only [decodeField, decodeInt] at h
    split at h
    · simp at h; subst h; subst hx; rfl
    · simp at h
  case Vendor.str s =>
    simp [decodeField, decodeString] at h
    subst h; subst hx; rfl
  case Accessories.arr xs =>
    cases hs : allStrings xs with
    | none => simp [hs] at hx
    | some ss =>
      simp [hs] at hx
      simp [decodeField, decodeStrings, decodeElems_allStrings p.Accessories xs ss hs] at h
      subst h; subst hx; rfl
  case IsEssential.bool b =>
    simp [decodeField, decodeBool] at h
    subst h; subst hx; rfl

theorem patchValue_cons (f : ProductField) (k : String) (v : JSON) (rest : List (String × JSON)) :
    patchValue f ((k, v) :: rest) =
      match patchValue f rest with
      | some w => some w
      | none => if fieldOf k = some f then some v else none := rfl

theorem decodeObject_field (drv : Driver) (f : ProductField) (kvs : List (String × JSON))
    (p r : Product) (err : Option GoError)
    (h : decodeObject drv kvs p err = (r, none)) :
    ((f = .ID → drv.ReadsHex) →
        ∀ v x, patchValue f kvs = some v → typedValue f v = some x → r.field f = x)
      ∧ (patchValue f kvs = none → r.field f = p.field f) := by
  induction kvs generalizing p err with
  | nil =>
    simp [decodeObject] at h
    simp [patchValue, h.1]
  | cons kv rest ih =>
    obtain ⟨k, v⟩ := kv
    have hstep := decodeObject_step drv k v rest p r err h
    rw [patchValue_cons]
    cases hf : fieldOf k with
    | none =>
      have := ih p err (hstep.1 hf)
      cases hp : patchValue f rest with
      | none => simpa [hp] using this.2
      | some w =>
        simp only [hp] at this ⊢
        exact ⟨this.1, fun hn => by simp at hn⟩
    | some g =>
      obtain ⟨he, hrest⟩ := hstep.2 g hf
      have := ih _ err hrest
      cases hp : patchValue f rest with
      | some w =>
        simp only [hp] at this ⊢
        exact ⟨this.1, fun hn => by simp at hn⟩
      | none =>
        have h2 := this.2 hp
        by_cases hgf : g = f
        · subst hgf
          simp only [if_true]
          refine ⟨fun hdrv v0 x hv hx => ?_, fun hn => by simp at hn⟩
          simp at hv; subst hv
          rw [h2]
          exact decodeField_typed drv g v p _ x hdrv (Prod.ext rfl he) hx
        · have hne : ¬ (some g = some f) := by simpa using hgf
          simp only [hne, if_false]
          refine ⟨fun _ v0 x hv => by simp at hv, fun _ => ?_⟩
          rw [h2]
          exact decodeField_frame drv f g v p hgf

theorem patchValue_none_of_other (f g : ProductField) (kvs : List (String × JSON))
    (hk : ∀ kv ∈ kvs, fieldOf kv.1 = some g) (hne : g ≠ f) : patchValue f kvs = none := by
  induction kvs with
  | nil => rfl
  | cons kv rest ih =>
    obtain ⟨k, v⟩ := kv
    rw [patchValue_cons, ih (fun kv h => hk kv (List.mem_cons_of_mem _ h))]
    have := hk (k, v) (List.mem_cons_self _ _)
    simp only at this
    simp [this, hne]

theorem patchValue_none_of_values (f : ProductField) (kvs : List (String × JSON))
    (h : patchValues f kvs = []) : patchValue f kvs = none := by
  induction kvs with
  | nil => rfl
  | cons kv rest ih =>
    obtain ⟨k, v⟩ := kv
    by_cases hk : fieldOf k = some f
    · simp [patchValues, hk] at h
    · have hr : patchValues f rest = [] := by simpa [patchValues, hk] using h
      rw [patchValue_cons, ih hr]
      simp [hk]

/-- A field that no member of the patch names keeps the stored value. -/
theorem decodeObject_untouched (drv : Driver) (f : ProductField) (kvs : List (String × JSON))
    (p r : Product) (err : Option GoError)
    (h : decodeObject drv kvs p err = (r, none)) (hv : patchValues f kvs = []) :
    r.field f = p.field f := by
  induction kvs generalizing p err with
  | nil =>
    simp [decodeObject] at h
    rw [h.1]
  | cons kv rest ih =>
    obtain ⟨k, w⟩ := kv
    have hstep := decodeObject_step drv k w rest p r err h
    cases hf : fieldOf k with
    | none =>
      have hr : patchValues f rest = [] := by simpa [patchValues, hf] using hv
      exact ih p err (hstep.1 hf) hr
    | some g =>
      obtain ⟨-, hrest⟩ := hstep.2 g hf
      by_cases hgf : g = f
      · subst hgf
        simp [patchValues, hf] at hv
      · have hne : ¬ (some g = some f) := by simpa using hgf
        have hr : patchValues f rest = [] := by simpa [patchValues, hf, hne] using hv
        rw [ih _ err hrest hr]
        exact decodeField_frame drv f g w p hgf

/-- When exactly one member of the patch names a field, the field is what that
member decodes to on top of the stored value. -/
theorem decodeObject_single (drv : Driver) (f : ProductField) (kvs : List (String × JSON))
    (v : JSON) (p r : Product) (err : Option GoError)
    (h : decodeObject drv kvs p err = (r, none)) (hv : patchValues f kvs = [v]) :
    r.field f = (decodeField drv f v p).1.field f := by
  induction kvs generalizing p err with
  | nil => simp [patchValues] at hv
  | cons kv rest ih =>
    obtain ⟨k, w⟩ := kv
    have hstep := decodeObject_step drv k w rest p r err h
    cases hf : fieldOf k with
    | none =>
      have hr : patchValues f rest = [v] := by simpa [patchValues, hf] using hv
      exact ih p err (hstep.1 hf) hr
    | some g =>
      obtain ⟨-, hrest⟩ := hstep.2 g hf
      by_cases hgf : g = f
      · subst hgf
        have hr : w = v ∧ patchValues g rest = [] := by simpa [patchValues, hf] using hv
        obtain ⟨rfl, hnil⟩ := hr
        exact decodeObject_untouched drv g rest _ r err hrest hnil
      · have hne : ¬ (some g = some f) := by simpa using hgf
        have hr : patchValues f rest = [v] := by simpa [patchValues, hf, hne] using hv
        rw [ih _ err hrest hr]
        exact decodeField_congr drv f v p _ (decodeField_frame drv f g w p hgf)

/-! ### Insertion of products (`insertProducts`) -/

theorem logged_InsertOne {σ δ : Type} (col : CollectionAPI σ δ) (st : σ × List (Call δ)) (d : δ) :
    (logged col).InsertOne st d
      = ((col.InsertOne st.1 d).1, ((col.InsertOne st.1 d).2, st.2 ++ [.insertOne d])) := rfl

theorem logged_Find {σ δ : Type} (col : CollectionAPI σ δ) (st : σ × List (Call δ)) (f : Filter) :
    (logged col).Find st f = ((col.Find st.1 f).1, ((col.Find st.1 f).2, st.2 ++ [.find f])) := rfl

theorem logged_FindOne {σ δ : Type} (col : CollectionAPI σ δ) (st : σ × List (Call δ)) (f : Filter) :
    (logged col).FindOne st f
      = ((col.FindOne st.1 f).1, ((col.FindOne st.1 f).2, st.2 ++ [.findOne f])) := rfl

theorem logged_UpdateOne {σ δ : Type} (col : CollectionAPI σ δ) (st : σ × List (Call δ))
    (f : Filter) (u : Update δ) :
    (logged col).UpdateOne st f u
      = ((col.UpdateOne st.1 f u).1, ((col.UpdateOne st.1 f u).2, st.2 ++ [.updateOne f u])) := rfl

theorem logged_DeleteOne {σ δ : Type} (col : CollectionAPI σ δ) (st : σ × List (Call δ)) (f : Filter) :
    (logged col).DeleteOne st f
      = ((col.DeleteOne st.1 f).1, ((col.DeleteOne st.1 f).2, st.2 ++ [.deleteOne f])) := rfl

theorem stamped_nil (gen : Nat → ObjectID) (n : Nat) : stamped gen n [] = [] := rfl

theorem stamped_cons (gen : Nat → ObjectID) (n : Nat) (p : Product) (ps : List Product) :
    stamped gen n (p :: ps) = { p with ID := gen n } :: stamped gen (n + 1) ps := by
  simp [stamped, List.enumFrom_cons]

theorem stamped_length (gen : Nat → ObjectID) (n : Nat) (ps : List Product) :
    (stamped gen n ps).length = ps.length := by
  simp [stamped]

theorem stamped_append (gen : Nat → ObjectID) (n : Nat) (ps qs : List Product) :
    stamped gen n (ps ++ qs) = stamped gen n ps ++ stamped gen (n + ps.length) qs := by
  induction ps generalizing n with
  | nil => simp [stamped_nil]
  | cons p ps ih =>
    simp only [List.cons_append, stamped_cons, ih, List.length_cons]
    rw [show n + 1 + ps.length = n + (ps.length + 1) by omega]

theorem stamped_getElem? (gen : Nat → ObjectID) (n : Nat) (ps : List Product) (i : Nat) :
    (stamped gen n ps)[i]? = (ps[i]?).map (fun p => { p with ID := gen (n + i) }) := by
  induction ps generalizing n i with
  | nil => simp [stamped_nil]
  | cons p ps ih =>
    cases i with
    | zero => simp [stamped_cons]
    | succ i =>
      simp only [stamped_cons, List.getElem?_cons_succ, ih]
      rw [show n + 1 + i = n + (i + 1) by omega]

theorem insertAll_cons {σ δ : Type} (col : CollectionAPI σ δ) (s : σ) (d : δ) (ds : List δ) :
    insertAll col s (d :: ds) = insertAll col (col.InsertOne s d).2 ds := rfl

theorem insertReplies_cons {σ δ : Type} (col : CollectionAPI σ δ) (s : σ) (d : δ) (ds : List δ) :
    insertReplies col s (d :: ds)
      = (col.InsertOne s d).1 :: insertReplies col (col.InsertOne s d).2 ds := rfl

theorem insertProductsLoop_step_ok {σ : Type} (gen : Nat → ObjectID) (col : CollectionAPI σ Product)
    (p : Product) (rest : List Product) (acc : List BVal) (s : σ) (tr : List (Call Product))
    (n : Nat) (r : InsertOneResult) (h : (col.InsertOne s { p with ID := gen n }).1 = .ok r) :
    insertProductsLoop gen (logged col) (p :: rest) acc (s, tr) n
      = insertProductsLoop gen (logged col) rest (acc ++ [r.InsertedID])
          ((col.InsertOne s { p with ID := gen n }).2, tr ++ [.insertOne { p with ID := gen n }])
          (n + 1) := by
  simp only [insertProductsLoop, logged_InsertOne, h]

theorem insertProductsLoop_step_fail {σ : Type} (gen : Nat → ObjectID)
    (col : CollectionAPI σ Product) (p : Product) (rest : List Product) (acc : List BVal) (s : σ)
    (tr : List (Call Product)) (n : Nat) (e : GoError)
    (h : (col.InsertOne s { p with ID := gen n }).1 = .error e) :
    insertProductsLoop gen (logged col) (p :: rest) acc (s, tr) n
      = (([], some (NewHTTPError StatusInternalServerError "unable to insert to database")),
          ((col.InsertOne s { p with ID := gen n }).2, tr ++ [.insertOne { p with ID := gen n }]),
          n + 1) := by
  simp only [insertProductsLoop, logged_InsertOne, h]

theorem insertProductsLoop_ok {σ : Type} (gen : Nat → ObjectID) (col : CollectionAPI σ Product)
    (products : List Product) (acc : List BVal) (s : σ) (tr : List (Call Product)) (n : Nat)
    (results : List InsertOneResult)
    (h : insertReplies col s (stamped gen n products) = results.map Except.ok) :
    insertProductsLoop gen (logged col) products acc (s, tr) n
      = ((acc ++ results.map (fun r => r.InsertedID), none),
          (insertAll col s (stamped gen n products),
            tr ++ (stamped gen n products).map Call.insertOne),
          n + products.length) := by
  induction products generalizing acc s tr n results with
  | nil =>
    cases results with
    | nil => simp [insertProductsLoop, stamped_nil, insertAll]
    | cons r rs => simp [stamped_nil, insertReplies] at h
  | cons p ps ih =>
    rw [stamped_cons] at h ⊢
    cases results with
    | nil => simp [insertReplies] at h
    | cons r rs =>
      rw [insertReplies_cons, List.map_cons, List.cons.injEq] at h
      obtain ⟨h1, h2⟩ := h
      rw [insertProductsLoop_step_ok gen col p ps acc s tr n r h1, ih _ _ _ _ rs h2, insertAll_cons]
      simp [Nat.add_assoc, Nat.add_comm 1]

theorem insertProductsLoop_fail {σ : Type} (gen : Nat → ObjectID) (col : CollectionAPI σ Product)
    (pre : List Product) (pk : Product) (post : List Product) (acc : List BVal) (s : σ)
    (tr : List (Call Product)) (n : Nat) (results : List InsertOneResult) (e : GoError)
    (hpre : insertReplies col s (stamped gen n pre) = results.map Except.ok)
    (hfail : (col.InsertOne (insertAll col s (stamped gen n pre))
      { pk with ID := gen (n + pre.length) }).1 = .error e) :
    insertProductsLoop gen (logged col) (pre ++ pk :: post) acc (s, tr) n
      = (([], some (NewHTTPError StatusInternalServerError "unable to insert to database")),
          ((col.InsertOne (insertAll col s (stamped gen n pre))
              { pk with ID := gen (n + pre.length) }).2,
            tr ++ (stamped gen n (pre ++ [pk])).map Call.insertOne),
          n + pre.length + 1) := by
  induction pre generalizing acc s tr n results with
  | nil =>
    rw [stamped_nil, List.length_nil, Nat.add_zero] at hfail
    change (col.InsertOne s { pk with ID := gen n }).1 = .error e at hfail
    rw [List.nil_append, insertProductsLoop_step_fail gen col pk post acc s tr n e hfail]
    simp [stamped_cons, stamped_nil, insertAll]
  | cons p ps ih =>
    rw [stamped_cons] at hpre
    cases results with
    | nil => simp [insertReplies] at hpre
    | cons r rs =>
      rw [insertReplies_cons, List.map_cons, List.cons.injEq] at hpre
      obtain ⟨h1, h2⟩ := hpre
      rw [stamped_cons, insertAll_cons, List.length_cons,
        show n + (ps.length + 1) = n + 1 + ps.length by omega] at hfail
      rw [List.cons_append, insertProductsLoop_step_ok gen col p _ acc s tr n r h1,
        ih _ _ _ _ rs h2 hfail]
      have e1 : n + (ps.length + 1) = n + 1 + ps.length := by omega
      simp only [stamped_cons, insertAll_cons, List.length_cons, List.map_cons, List.append_assoc,
        List.singleton_append, List.cons_append, List.nil_append, e1]

theorem insertReplies_length {σ δ : Type} (col : CollectionAPI σ δ) (s : σ) (ds : List δ) :
    (insertReplies col s ds).length = ds.length := by
  induction ds generalizing s with
  | nil => rfl
  | cons d ds ih => simp [insertReplies, ih]

theorem stamped_ID (gen : Nat → ObjectID) (n : Nat) (ps : List Product) (d : Product)
    (h : d ∈ stamped gen n ps) : ∃ i, d.ID = gen i := by
  induction ps generalizing n with
  | nil => simp [stamped_nil] at h
  | cons p ps ih =>
    rw [stamped_cons] at h
    rcases List.mem_cons.mp h with rfl | h
    · exact ⟨n, rfl⟩
    · exact ih (n + 1) h

theorem productCollection_InsertOne (auto : Nat → ObjectID) (st : ProductStore) (p : Product)
    (h : p.ID ≠ NilObjectID) :
    (productCollection auto).InsertOne st p
      = if st.docs.any (fun d => d.ID = p.ID) then (.error "E11000 duplicate key error", st)
        else (.ok ⟨.oid p.ID⟩, ⟨st.docs ++ [p]⟩) := by
  simp [productCollection, h]

theorem productCollection_inserts (auto : Nat → ObjectID) (docs : List Product)
    (st : ProductStore) (rs : List InsertOneResult) (hid : ∀ d ∈ docs, d.ID ≠ NilObjectID)
    (h : insertReplies (productCollection auto) st docs = rs.map Except.ok) :
    rs.map (fun r => r.InsertedID) = docs.map (fun d => BVal.oid d.ID)
      ∧ insertAll (productCollection auto) st docs = ⟨st.docs ++ docs⟩ := by
  induction docs generalizing st rs with
  | nil =>
    cases rs with
    | nil => simp [insertAll]
    | cons r rs => simp [insertReplies] at h
  | cons d ds ih =>
    cases rs with
    | nil => simp [insertReplies] at h
    | cons r rs =>
      rw [insertReplies_cons, List.map_cons, List.cons.injEq] at h
      obtain ⟨h1, h2⟩ := h
      have hd := hid d (List.mem_cons_self _ _)
      rw [productCollection_InsertOne auto st d hd] at h1 h2
      rw [insertAll_cons, productCollection_InsertOne auto st d hd]
      split at h1
      · simp at h1
      · rename_i hany
        simp only [hany, if_false] at h2 ⊢
        simp only [Except.ok.injEq] at h1
        have := ih ⟨st.docs ++ [d]⟩ rs (fun x hx => hid x (List.mem_cons_of_mem _ hx)) h2
        refine ⟨?_, ?_⟩
        · simp [← h1, this.1]
        · simp [this.2]

/-- C4: when every insertion of the products (each stamped with the identifier
drawn for it) succeeds, `insertProducts` makes exactly those `InsertOne` calls
in input order and nothing else, returns without error the `InsertedID` the
store reported for each call in the same order, one per input, and the i-th
inserted document is the i-th input with only its `ID` replaced by the i-th
drawn identifier; on the reference store the returned identifiers are the
drawn identifiers and the documents are appended to the collection. -/
theorem insertProducts_in_order {σ : Type} (gen : Nat → ObjectID) (col : CollectionAPI σ Product)
    (products : List Product) (s : σ) (n : Nat) (results : List InsertOneResult)
    (hok : insertReplies col s (stamped gen n products) = results.map Except.ok) :
    insertProducts gen products (logged col) (s, []) n
        = ((results.map (fun r => r.InsertedID), none),
            (insertAll col s (stamped gen n products),
              (stamped gen n products).map Call.insertOne),
            n + products.length)
      ∧ (results.map (fun r => r.InsertedID)).length = products.length
      ∧ (∀ i : Nat, (stamped gen n products)[i]?
          = (products[i]?).map (fun p : Product => { p with ID := gen (n + i) }))
      ∧ (∀ (auto : Nat → ObjectID) (st : ProductStore) (rs : List InsertOneResult),
          (∀ i, gen i ≠ NilObjectID) →
          insertReplies (productCollection auto) st (stamped gen n products) = rs.map Except.ok →
          rs.map (fun r => r.InsertedID) = (stamped gen n products).map (fun d => BVal.oid d.ID)
            ∧ insertAll (productCollection auto) st (stamped gen n products)
                = ⟨st.docs ++ stamped gen n products⟩) := by
  refine ⟨?_, ?_, stamped_getElem? gen n products, ?_⟩
  · have := insertProductsLoop_ok gen col products [] s [] n results hok
    simpa [insertProducts] using this
  · have h1 := congrArg List.length hok
    rw [insertReplies_length, stamped_length, List.length_map] at h1
    simp [h1]
  · intro auto st rs hgen hrs
    refine productCollection_inserts auto _ st rs ?_ hrs
    intro d hd
    obtain ⟨i, hi⟩ := stamped_ID gen n products d hd
    rw [hi]; exact hgen i

/-- C5: when the insertions of the first k-1 products succeed and that of
the k-th fails, `insertProducts` returns no identifiers and HTTP 500, its
calls to the store are exactly the k insertions (none for the later products
and no compensating call), and the store is left as the k-th call left it;
on the reference store the k-1 earlier documents remain in the collection. -/
theorem insertProducts_abort {σ : Type} (gen : Nat → ObjectID) (col : CollectionAPI σ Product)
    (pre : List Product) (pk : Product) (post : List Product) (s : σ) (n : Nat)
    (results : List InsertOneResult) (e : GoError)
    (hpre : insertReplies col s (stamped gen n pre) = results.map Except.ok)
    (hfail : (col.InsertOne (insertAll col s (stamped gen n pre))
      { pk with ID := gen (n + pre.length) }).1 = .error e) :
    insertProducts gen (pre ++ pk :: post) (logged col) (s, []) n
        = (([], some (NewHTTPError 500 "unable to insert to database")),
            ((col.InsertOne (insertAll col s (stamped gen n pre))
                { pk with ID := gen (n + pre.length) }).2,
              (stamped gen n (pre ++ [pk])).map Call.insertOne),
            n + pre.length + 1)
      ∧ (∀ (auto : Nat → ObjectID) (st : ProductStore) (rs : List InsertOneResult) (e1 : GoError),
          (∀ i, gen i ≠ NilObjectID) →
          insertReplies (productCollection auto) st (stamped gen n pre) = rs.map Except.ok →
          ((productCollection auto).InsertOne (insertAll (productCollection auto) st (stamped gen n pre))
            { pk with ID := gen (n + pre.length) }).1 = .error e1 →
          (insertProducts gen (pre ++ pk :: post) (logged (productCollection auto)) (st, []) n).2.1.1
            = ⟨st.docs ++ stamped gen n pre⟩) := by
  refine ⟨?_, ?_⟩
  · have := insertProductsLoop_fail gen col pre pk post [] s [] n results e hpre hfail
    simpa [insertProducts] using this
  · intro auto st rs e1 hgen hrs hf
    have := insertProductsLoop_fail gen (productCollection auto) pre pk post [] st [] n rs e1 hrs hf
    simp only [insertProducts, this]
    have hall : ∀ d ∈ stamped gen n pre, d.ID ≠ NilObjectID := by
      intro d hd
      obtain ⟨i, hi⟩ := stamped_ID gen n pre d hd
      rw [hi]; exact hgen i
    have hst := (productCollection_inserts auto _ st rs hall hrs).2
    rw [hst] at hf ⊢
    have hne : ({ pk with ID := gen (n + pre.length) } : Product).ID ≠ NilObjectID := hgen _
    rw [productCollection_InsertOne auto _ _ hne] at hf ⊢
    split at hf
    · rename_i hany
      simp only [hany, if_true]
    · simp at hf


/-- C4 on two products, the first of which carries a caller-supplied
identifier: both are inserted under the drawn identifiers, which are returned
in order. -/
theorem insertProducts_in_order_witness :
    insertProducts sampleID [googletalk, usd] (logged (productCollection autoID)) (⟨[]⟩, []) 1
      = (([.oid (sampleID 1), .oid (sampleID 2)], none),
          (⟨[{ googletalk with ID := sampleID 1 }, { usd with ID := sampleID 2 }]⟩,
            [.insertOne { googletalk with ID := sampleID 1 }, .insertOne { usd with ID := sampleID 2 }]),
          3) :=
  (insertProducts_in_order sampleID (productCollection autoID) [googletalk, usd] ⟨[]⟩ 1
    [⟨.oid (sampleID 1)⟩, ⟨.oid (sampleID 2)⟩] (by decide)).1

/-- C5 on three products where the identifier drawn for the second is
already taken: the first stays inserted, the third is never attempted. -/
theorem insertProducts_abort_witness :
    insertProducts sampleID ([googletalk] ++ usd :: [freebie])
        (logged (productCollection autoID)) (⟨[{ refund with ID := sampleID 2 }]⟩, []) 1
      = (([], some (NewHTTPError 500 "unable to insert to database")),
          (⟨[{ refund with ID := sampleID 2 }, { googletalk with ID := sampleID 1 }]⟩,
            [.insertOne { googletalk with ID := sampleID 1 }, .insertOne { usd with ID := sampleID 2 }]),
          3) :=
  (insertProducts_abort sampleID (productCollection autoID) [googletalk] usd [freebie]
    ⟨[{ refund with ID := sampleID 2 }]⟩ 1 [⟨.oid (sampleID 1)⟩] "E11000 duplicate key error"
    (by decide) (by decide)).1

/-! ### Query filters (`findProducts`) -/

theorem mapGet_nil {β : Type} (k : String) : mapGet ([] : List (String × β)) k = none := rfl

theorem mapGet_cons {β : Type} (k0 : String) (v0 : β) (m : List (String × β)) (k : String) :
    mapGet ((k0, v0) :: m) k = if k0 = k then some v0 else mapGet m k := by
  by_cases h : k0 = k <;> simp [mapGet, List.find?_cons, h]

theorem mapGet_mapSet {β : Type} (m : List (String × β)) (k : String) (v : β) (k1 : String) :
    mapGet (mapSet m k v) k1 = if k = k1 then some v else mapGet m k1 := by
  induction m with
  | nil => simp [mapSet, mapGet_cons, mapGet_nil]
  | cons e m ih =>
    obtain ⟨k0, v0⟩ := e
    by_cases h0 : k0 = k
    · subst h0
      simp only [mapSet, if_true, mapGet_cons]
      by_cases h1 : k0 = k1 <;> simp [h1]
    · simp only [mapSet, h0, if_false, mapGet_cons, ih]
      by_cases h1 : k0 = k1
      · subst h1
        simp [h0, Ne.symm h0]
      · simp [h1]

theorem mapSet_fresh {β : Type} (m : List (String × β)) (k : String) (v : β)
    (h : ∀ e ∈ m, e.1 ≠ k) : mapSet m k v = m ++ [(k, v)] := by
  induction m with
  | nil => rfl
  | cons e m ih =>
    obtain ⟨k0, v0⟩ := e
    have h0 : k0 ≠ k := h (k0, v0) (List.mem_cons_self _ _)
    simp [mapSet, h0, ih (fun e he => h e (List.mem_cons_of_mem _ he))]

theorem mapSet_keys {β : Type} (m : List (String × β)) (k : String) (v w : β)
    (h : mapGet m k = some w) : (mapSet m k v).map Prod.fst = m.map Prod.fst := by
  induction m with
  | nil => simp [mapGet_nil] at h
  | cons e m ih =>
    obtain ⟨k0, v0⟩ := e
    by_cases h0 : k0 = k
    · simp [mapSet, h0]
    · rw [mapGet_cons] at h
      simp only [h0, if_false] at h
      simp [mapSet, h0, ih h]

theorem queryFilter_cons (k : String) (v : List String) (q : Values) :
    queryFilter ((k, v) :: q) = (k, BVal.str (v.headD "")) :: queryFilter q := rfl

theorem queryFilter_keys (q : Values) : (queryFilter q).map Prod.fst = q.map Prod.fst := by
  simp [queryFilter]

theorem mapGet_queryFilter (q : Values) (k : String) :
    mapGet (queryFilter q) k = (mapGet q k).map (fun v => BVal.str (v.headD "")) := by
  induction q with
  | nil => rfl
  | cons e q ih =>
    obtain ⟨k0, v0⟩ := e
    rw [queryFilter_cons, mapGet_cons, mapGet_cons, ih]
    by_cases h : k0 = k <;> simp [h]

theorem rangeQuery_ret (q : Values) (acc : Filter) (hmap : (q.map Prod.fst).Nodup)
    (hvals : ∀ kv ∈ q, kv.2 ≠ []) (hacc : ∀ e ∈ acc, ∀ kv ∈ q, e.1 ≠ kv.1) :
    rangeQuery q acc = .ret (acc ++ queryFilter q) := by
  induction q generalizing acc with
  | nil => simp [rangeQuery, queryFilter]
  | cons kv q ih =>
    obtain ⟨k, v⟩ := kv
    have hv : v ≠ [] := hvals (k, v) (List.mem_cons_self _ _)
    obtain ⟨v0, vs, rfl⟩ := List.exists_cons_of_ne_nil hv
    simp only [List.map_cons, List.nodup_cons] at hmap
    have hfresh : ∀ e ∈ acc, e.1 ≠ k := fun e he => hacc e he (k, v0 :: vs) (List.mem_cons_self _ _)
    simp only [rangeQuery]
    rw [mapSet_fresh acc k _ hfresh, ih (acc ++ [(k, BVal.str v0)]) hmap.2
      (fun kv h => hvals kv (List.mem_cons_of_mem _ h))]
    · simp [queryFilter_cons]
    · intro e he kv hkv
      rcases List.mem_append.mp he with he | he
      · exact hacc e he kv (List.mem_cons_of_mem _ hkv)
      · simp only [List.mem_singleton] at he
        subst he
        intro heq
        simp only at heq
        apply hmap.1
        rw [heq]
        exact List.mem_map_of_mem Prod.fst hkv

theorem findWith_log {σ : Type} (col : CollectionAPI σ Product) (f : Filter) (s : σ)
    (tr : List (Call Product)) :
    (findWith (logged col) f (s, tr)).2 = ((col.Find s f).2, tr ++ [.find f]) := by
  simp only [findWith, logged_Find]
  rcases (col.Find s f).1 with e | c
  · rfl
  · simp only
    rcases c.All with ⟨ps, _ | e⟩ <;> rfl

theorem mapGet_none_of_no_key {β : Type} (m : List (String × β)) (k : String)
    (h : ∀ e ∈ m, e.1 ≠ k) : mapGet m k = none := by
  induction m with
  | nil => rfl
  | cons e m ih =>
    obtain ⟨k0, v0⟩ := e
    rw [mapGet_cons]
    have h0 : k0 ≠ k := h (k0, v0) (List.mem_cons_self _ _)
    simp [h0, ih (fun e he => h e (List.mem_cons_of_mem _ he))]

/-- C6: for a query map without the key `_id` in which every key has a
value, `findProducts` makes one call to the store, `Find` with a filter that
has exactly the keys of the query map, each mapped to the key's first string
value as a string; a key absent from the query is absent from the filter. -/
theorem findProducts_passthrough {σ : Type} (q : Values) (col : CollectionAPI σ Product) (s : σ)
    (hmap : (q.map Prod.fst).Nodup) (hvals : ∀ kv ∈ q, kv.2 ≠ [])
    (hno : ∀ kv ∈ q, kv.1 ≠ "_id") :
    findProducts q (logged col) (s, []) = .ret (findWith (logged col) (queryFilter q) (s, []))
      ∧ (findWith (logged col) (queryFilter q) (s, [])).2.2 = [.find (queryFilter q)]
      ∧ (queryFilter q).map Prod.fst = q.map Prod.fst
      ∧ (∀ k v0 vs, mapGet q k = some (v0 :: vs) → mapGet (queryFilter q) k = some (.str v0))
      ∧ (∀ k, mapGet q k = none → mapGet (queryFilter q) k = none) := by
  have hr := rangeQuery_ret q [] hmap hvals (by simp)
  simp only [List.nil_append] at hr
  have hid : mapGet (queryFilter q) "_id" = none := by
    rw [mapGet_queryFilter, mapGet_none_of_no_key q "_id" hno]; rfl
  refine ⟨?_, ?_, queryFilter_keys q, ?_, ?_⟩
  · simp only [findProducts, hr, hid]
  · rw [findWith_log]; rfl
  · intro k v0 vs h
    rw [mapGet_queryFilter, h]; rfl
  · intro k h
    rw [mapGet_queryFilter, h]; rfl

/-- C7: for a query map that carries `_id`, every key having at least one
value as in the maps `c.QueryParams()` hands over (`url.ParseQuery` enters a
key together with a value): when the value of `_id` parses as an identifier,
the single call to the store is `Find` with a filter that maps `_id` to the
parsed 12-byte identifier and every other key to its string value, over the
same keys; when it does not parse, `findProducts` returns HTTP 500 and makes
no call to the store.  The value parses exactly when it consists of 24
hexadecimal digits. -/
theorem findProducts_identifier {σ : Type} (q : Values) (col : CollectionAPI σ Product) (s : σ)
    (hex : String) (more : List String)
    (hmap : (q.map Prod.fst).Nodup) (hvals : ∀ kv ∈ q, kv.2 ≠ [])
    (hid : mapGet q "_id" = some (hex :: more)) :
    (∀ docID, ObjectIDFromHex hex = some docID →
        findProducts q (logged col) (s, [])
          = .ret (findWith (logged col) (mapSet (queryFilter q) "_id" (.oid docID)) (s, []))
        ∧ (findWith (logged col) (mapSet (queryFilter q) "_id" (.oid docID)) (s, [])).2.2
            = [.find (mapSet (queryFilter q) "_id" (.oid docID))]
        ∧ mapGet (mapSet (queryFilter q) "_id" (.oid docID)) "_id" = some (.oid docID)
        ∧ docID.bytes.length = 12
        ∧ (∀ k v0 vs, k ≠ "_id" → mapGet q k = some (v0 :: vs) →
            mapGet (mapSet (queryFilter q) "_id" (.oid docID)) k = some (.str v0))
        ∧ (mapSet (queryFilter q) "_id" (.oid docID)).map Prod.fst = q.map Prod.fst)
      ∧ (ObjectIDFromHex hex = none →
          findProducts q (logged col) (s, [])
            = .ret (([], some (NewHTTPError 500 "unable to convert to ObjectID")), (s, [])))
      ∧ ((ObjectIDFromHex hex).isSome ↔ WellFormedID hex) := by
  have hr := rangeQuery_ret q [] hmap hvals (by simp)
  simp only [List.nil_append] at hr
  have hf : mapGet (queryFilter q) "_id" = some (.str hex) := by
    rw [mapGet_queryFilter, hid]; rfl
  refine ⟨fun docID hd => ⟨?_, ?_, ?_, (ObjectIDFromHex_bytes hex docID hd).1, ?_, ?_⟩, ?_,
    ObjectIDFromHex_isSome_iff hex⟩
  · simp only [findProducts, hr, hf, hd]
  · rw [findWith_log]; rfl
  · rw [mapGet_mapSet]; simp
  · intro k v0 vs hk h
    rw [mapGet_mapSet, if_neg (Ne.symm hk), mapGet_queryFilter, h]; rfl
  · rw [mapSet_keys _ _ _ _ hf, queryFilter_keys]
  · intro hn
    simp only [findProducts, hr, hf, hn]
    rfl

/-- C6 on the query of the repository's test, `currency=INR&vendor=google`. -/
theorem findProducts_passthrough_witness :
    findProducts [("currency", ["INR"]), ("vendor", ["google"])]
        (logged (productCollection autoID)) (⟨[googletalk]⟩, [])
      = .ret (([googletalk], none),
          (⟨[googletalk]⟩, [.find [("currency", .str "INR"), ("vendor", .str "google")]])) :=
  (findProducts_passthrough [("currency", ["INR"]), ("vendor", ["google"])]
    (productCollection autoID) ⟨[googletalk]⟩ (by decide) (by decide) (by decide)).1.trans
    (by decide)

/-- C7 on a query with a well-formed `_id` and a second key. -/
theorem findProducts_identifier_witness :
    findProducts [("vendor", ["google"]), ("_id", ["5f1c0a010203040506070809"])]
        (logged (productCollection autoID)) (⟨[googletalk]⟩, [])
      = .ret (([googletalk], none),
          (⟨[googletalk]⟩, [.find [("vendor", .str "google"), ("_id", .oid googletalk.ID)]])) :=
  (((findProducts_identifier [("vendor", ["google"]), ("_id", ["5f1c0a010203040506070809"])]
    (productCollection autoID) ⟨[googletalk]⟩ "5f1c0a010203040506070809" []
    (by decide) (by decide) (by decide)).1 googletalk.ID (by decide)).1).trans (by decide)

/-! ### Deletion (`deleteProduct`) -/

theorem matchesFilter_id (d : Product) (x : ObjectID) :
    matchesFilter d.stored [("_id", .oid x)] = decide (d.ID = x) := by
  simp [matchesFilter, matchesEntry, Product.stored, mapGet_cons]

theorem find?_id_none (docs : List Product) (x : ObjectID) (h : ∀ d ∈ docs, d.ID ≠ x) :
    docs.find? (fun d => matchesFilter d.stored [("_id", .oid x)]) = none := by
  simp only [matchesFilter_id]
  rw [List.find?_eq_none]
  intro d hd
  simpa using h d hd

theorem find?_id_some (docs : List Product) (x : ObjectID) (h : ∃ d ∈ docs, d.ID = x) :
    ∃ d, docs.find? (fun d => matchesFilter d.stored [("_id", .oid x)]) = some d := by
  simp only [matchesFilter_id]
  obtain ⟨d, hd, hx⟩ := h
  cases hf : docs.find? (fun d => decide (d.ID = x)) with
  | some e => exact ⟨e, rfl⟩
  | none =>
    rw [List.find?_eq_none] at hf
    exact absurd (by simpa using hx) (hf d hd)

theorem removeFirst_none {δ : Type} (f : δ → Bool) (docs : List δ) (h : ∀ d ∈ docs, f d = false) :
    removeFirst f docs = docs := by
  induction docs with
  | nil => rfl
  | cons d ds ih =>
    simp [removeFirst, h d (List.mem_cons_self _ _), ih (fun e he => h e (List.mem_cons_of_mem _ he))]

theorem removeFirst_id (docs : List Product) (x : ObjectID)
    (hu : (docs.map (fun p => p.ID)).Nodup) :
    removeFirst (fun d => matchesFilter d.stored [("_id", .oid x)]) docs
      = docs.filter (fun d => d.ID ≠ x) := by
  simp only [matchesFilter_id]
  induction docs with
  | nil => rfl
  | cons d ds ih =>
    simp only [List.map_cons, List.nodup_cons] at hu
    by_cases hd : d.ID = x
    · subst hd
      simp only [removeFirst, decide_True, if_true, ne_eq, not_true_eq_false, decide_False,
        List.filter_cons_of_neg, Bool.false_eq_true, not_false_eq_true]
      symm
      rw [List.filter_eq_self]
      intro e he
      have : e.ID ≠ d.ID := by
        intro heq
        apply hu.1
        rw [← heq]
        exact List.mem_map_of_mem (fun p => p.ID) he
      simpa using this
    · simp [removeFirst, hd, ih hu.2]

theorem deleteProduct_store_hit (auto : Nat → ObjectID) (id : String) (docID : ObjectID)
    (st : ProductStore) (hid : ObjectIDFromHex id = some docID) (hu : UniqueIDs st)
    (h : ∃ d ∈ st.docs, d.ID = docID) :
    deleteProduct id (productCollection auto) st
      = ((1, none), ⟨st.docs.filter (fun d => d.ID ≠ docID)⟩) := by
  obtain ⟨d, hd⟩ := find?_id_some st.docs docID h
  simp only [deleteProduct, hid, productCollection, hd, removeFirst_id st.docs docID hu]

theorem deleteProduct_store_miss (auto : Nat → ObjectID) (id : String) (docID : ObjectID)
    (st : ProductStore) (hid : ObjectIDFromHex id = some docID)
    (h : ∀ d ∈ st.docs, d.ID ≠ docID) :
    deleteProduct id (productCollection auto) st = ((0, none), st) := by
  simp only [deleteProduct, hid, productCollection, find?_id_none st.docs docID h]

/-- C8: an identifier that does not parse makes `deleteProduct` return HTTP
500 without a call to the store; for one that parses, a successful
`DeleteOne` is the only call and its deletion count is returned without
error.  On the reference store, deleting an identifier that is present
returns 1 and removes that document and no other, deleting it again returns
0 without error and leaves the store as it is, and so does deleting an
identifier that is absent.  An identifier parses exactly when it consists of
24 hexadecimal digits. -/
theorem deleteProduct_idempotent {σ : Type} (id : String) (col : CollectionAPI σ Product)
    (s : σ) :
    (ObjectIDFromHex id = none →
        deleteProduct id (logged col) (s, [])
          = ((0, some (NewHTTPError 500 "unable to convert to ObjectID")), (s, [])))
      ∧ (∀ docID res, ObjectIDFromHex id = some docID →
          (col.DeleteOne s [("_id", .oid docID)]).1 = .ok res →
          deleteProduct id (logged col) (s, [])
            = ((res.DeletedCount, none),
                ((col.DeleteOne s [("_id", .oid docID)]).2, [.deleteOne [("_id", .oid docID)]])))
      ∧ (∀ (auto : Nat → ObjectID) (docID : ObjectID) (st : ProductStore),
          ObjectIDFromHex id = some docID → UniqueIDs st →
          ((∃ d ∈ st.docs, d.ID = docID) →
              deleteProduct id (productCollection auto) st
                = ((1, none), ⟨st.docs.filter (fun d => d.ID ≠ docID)⟩)
              ∧ deleteProduct id (productCollection auto) ⟨st.docs.filter (fun d => d.ID ≠ docID)⟩
                = ((0, none), ⟨st.docs.filter (fun d => d.ID ≠ docID)⟩))
          ∧ ((∀ d ∈ st.docs, d.ID ≠ docID) →
              deleteProduct id (productCollection auto) st = ((0, none), st)))
      ∧ ((ObjectIDFromHex id).isSome ↔ WellFormedID id) := by
  refine ⟨fun hn => ?_, fun docID res hid hres => ?_, fun auto docID st hid hu => ⟨fun h => ?_, ?_⟩,
    ObjectIDFromHex_isSome_iff id⟩
  · simp only [deleteProduct, hn]; rfl
  · simp only [deleteProduct, hid, logged_DeleteOne, hres]; rfl
  · refine ⟨deleteProduct_store_hit auto id docID st hid hu h, ?_⟩
    apply deleteProduct_store_miss auto id docID _ hid
    intro d hd
    simpa using (List.mem_filter.mp hd).2
  · exact deleteProduct_store_miss auto id docID st hid

/-- C8 on the store of the tests: the first deletion returns 1 and empties
the collection of that product, the second returns 0. -/
theorem deleteProduct_idempotent_witness :
    deleteProduct "5f1c0a010203040506070809" (productCollection autoID) ⟨[googletalk, moved]⟩
        = ((1, none), ⟨[moved]⟩)
      ∧ deleteProduct "5f1c0a010203040506070809" (productCollection autoID) ⟨[moved]⟩
        = ((0, none), ⟨[moved]⟩) :=
  ((deleteProduct_idempotent "5f1c0a010203040506070809" (productCollection autoID)
    ⟨[googletalk, moved]⟩).2.2.1 autoID googletalk.ID ⟨[googletalk, moved]⟩ (by decide)
    (by unfold UniqueIDs; decide)).1 ⟨googletalk, by decide, rfl⟩

/-! ### Overlay of a patch (`modifyProduct`) -/

/-- What a successful run of `modifyProduct` went through: the lookup found a
product, the body decoded onto it, the validator accepted the outcome and the
store accepted it in `$set`. -/
theorem modifyProduct_success {σ : Type} (drv : Driver) (col : CollectionAPI σ Product)
    (s s2 : σ) (id : String) (docID : ObjectID) (r : Product) (body : Option JSON)
    (log : List (Call Product)) (hid : ObjectIDFromHex id = some docID)
    (hrun : modifyProduct drv id body (logged col) (s, []) = ((r, none), (s2, log))) :
    ∃ p, (col.FindOne s [("_id", .oid docID)]).1 = .doc p
      ∧ decodeBody drv body p = (r, none)
      ∧ r.validate = []
      ∧ log = [.findOne [("_id", .oid docID)], .updateOne [("_id", .oid docID)] (.set r)]
      ∧ ∃ res, col.UpdateOne (col.FindOne s [("_id", .oid docID)]).2 [("_id", .oid docID)] (.set r)
          = (.ok res, s2) := by
  simp only [modifyProduct, hid, logged_FindOne] at hrun
  cases hf : (col.FindOne s [("_id", .oid docID)]).1 with
  | noDocuments => simp [hf, SingleResult.Decode] at hrun
  | undecodable msg => simp [hf, SingleResult.Decode] at hrun
  | doc p =>
    refine ⟨p, rfl, ?_⟩
    simp only [hf, SingleResult.Decode] at hrun
    rcases hd : decodeBody drv body p with ⟨q, _ | e⟩
    · simp only [hd] at hrun
      by_cases hv : q.validate ≠ []
      · rw [if_pos hv] at hrun
        simp at hrun
      · rw [if_neg hv] at hrun
        simp only [logged_UpdateOne] at hrun
        rcases hu : col.UpdateOne (col.FindOne s [("_id", .oid docID)]).2 [("_id", .oid docID)]
          (.set q) with ⟨e | res, s3⟩
        · simp [hu] at hrun
        · simp only [hu, Prod.mk.injEq, List.nil_append, List.singleton_append] at hrun
          obtain ⟨⟨hq, -⟩, hs, hl⟩ := hrun
          subst hq; subst hs
          exact ⟨rfl, by simpa using hv, hl.symm, res, hu⟩
    · simp [hd] at hrun

theorem find?_replaceFirst_id (docs : List Product) (x : ObjectID) (g : Product → Product)
    (q : Product) (hq : docs.find? (fun d => decide (d.ID = x)) = some q) (hg : (g q).ID = x) :
    (replaceFirst (fun d => decide (d.ID = x)) g docs).find? (fun d => decide (d.ID = x))
      = some (g q) := by
  induction docs with
  | nil => simp at hq
  | cons d ds ih =>
    by_cases hd : d.ID = x
    · simp only [List.find?_cons, hd, decide_True, Option.some.injEq] at hq
      subst hq
      simp [replaceFirst, hd, hg]
    · simp only [List.find?_cons, hd, decide_False] at hq
      simp [replaceFirst, hd, ih hq]

/-- On the products collection a successful `modifyProduct` leaves, under
the identifier of the request, the document found there before with the
returned product applied by `$set`. -/
theorem modifyProduct_stored (drv : Driver) (auto : Nat → ObjectID) (st st2 : ProductStore)
    (id : String) (docID : ObjectID) (w : Product) (body : Option JSON)
    (log : List (Call Product)) (hid : ObjectIDFromHex id = some docID)
    (hrun : modifyProduct drv id body (logged (productCollection auto)) (st, [])
      = ((w, none), (st2, log))) :
    ∃ q, ((productCollection auto).FindOne st [("_id", .oid docID)]).1 = .doc q
      ∧ (productCollection auto).FindOne st2 [("_id", .oid docID)] = (.doc (applySet q w), st2) := by
  obtain ⟨p, hp, -, -, -, res, hu⟩ :=
    modifyProduct_success drv (productCollection auto) st st2 id docID w body log hid hrun
  refine ⟨p, hp, ?_⟩
  simp only [productCollection, matchesFilter_id] at hp hu ⊢
  cases hf : st.docs.find? (fun d => decide (d.ID = docID)) with
  | none => simp [hf] at hp
  | some q =>
    simp only [hf, SingleResult.doc.injEq] at hp hu
    subst hp
    split at hu
    · simp at hu
    · simp only [Prod.mk.injEq] at hu
      have hs := hu.2
      subst hs
      have hqid : q.ID = docID := by simpa using List.find?_some hf
      simp only [find?_replaceFirst_id st.docs docID (fun d => applySet d w) q hf
        (by simpa [applySet] using hqid)]

theorem decodeField_null (drv : Driver) (f : ProductField) (p : Product) (hf : f ≠ .ID) :
    (decodeField drv f .null p).1.field f = if f = .Accessories then .arr [] else p.field f := by
  cases f <;> first | exact absurd rfl hf | rfl

/-- C1, as amended: whenever `modifyProduct` succeeds on a patch object, the
product it returns is the product it hands to the store in the `$set` of its
single `UpdateOne` call, and of that product: each field other than `_id`
that the patch names (the last mention counting) with a value of the
field's type has that value; each field the patch does not name keeps the
value of the stored product p; a field other than `_id` whose single mention
carries `null` keeps the value of p, except `accessories`, which becomes
empty; when `accessories` is mentioned once with an array, the outcome has
the length of the array, a string element standing at its position and a
`null` element giving way to the accessory of p at that position (the empty
string when p has none); a patch that names only `currency` leaves every
other field as in p.  On the products collection the document stored under
the identifier afterwards has the name, price, currency, discount, vendor and
essential flag of the returned product, and its accessories when these are
not empty. -/
theorem modifyProduct_overlay {σ : Type} (drv : Driver) (col : CollectionAPI σ Product)
    (s s2 : σ) (id : String) (docID : ObjectID) (p r : Product) (kvs : List (String × JSON))
    (log : List (Call Product))
    (hid : ObjectIDFromHex id = some docID)
    (hfind : (col.FindOne s [("_id", .oid docID)]).1 = .doc p)
    (hrun : modifyProduct drv id (some (.obj kvs)) (logged col) (s, []) = ((r, none), (s2, log))) :
    log = [.findOne [("_id", .oid docID)], .updateOne [("_id", .oid docID)] (.set r)]
    ∧ (∀ f, (f ≠ .ID → ∀ v x, patchValue f kvs = some v → typedValue f v = some x → r.field f = x)
          ∧ (patchValue f kvs = none → r.field f = p.field f)
          ∧ (f ≠ .ID → patchValues f kvs = [.null] →
              r.field f = if f = .Accessories then .arr [] else p.field f))
    ∧ (∀ xs, patchValues .Accessories kvs = [.arr xs] →
        r.Accessories.length = xs.length
          ∧ ∀ i : Nat, (∀ a, xs[i]? = some (.str a) → r.Accessories[i]? = some a)
              ∧ (xs[i]? = some .null → r.Accessories[i]? = some (p.Accessories.getD i "")))
    ∧ ((∀ kv ∈ kvs, fieldOf kv.1 = some .Currency) →
        r.ID = p.ID ∧ r.Name = p.Name ∧ r.Price = p.Price ∧ r.Discount = p.Discount
          ∧ r.Vendor = p.Vendor ∧ r.Accessories = p.Accessories ∧ r.IsEssential = p.IsEssential)
    ∧ (∀ (auto : Nat → ObjectID) (st st2 : ProductStore) (w : Product) (lg : List (Call Product)),
        modifyProduct drv id (some (.obj kvs)) (logged (productCollection auto)) (st, [])
            = ((w, none), (st2, lg)) →
          ∃ d, (productCollection auto).FindOne st2 [("_id", .oid docID)] = (.doc d, st2)
            ∧ d.ID = docID ∧ d.Name = w.Name ∧ d.Price = w.Price ∧ d.Currency = w.Currency
            ∧ d.Discount = w.Discount ∧ d.Vendor = w.Vendor ∧ d.IsEssential = w.IsEssential
            ∧ (w.Accessories ≠ [] → d.Accessories = w.Accessories)) := by
  obtain ⟨p1, hp1, hdec, -, hlog, -⟩ :=
    modifyProduct_success drv col s s2 id docID r (some (.obj kvs)) log hid hrun
  rw [hfind] at hp1
  cases hp1
  have hd : decodeObject drv kvs p none = (r, none) := hdec
  have hfield := fun f => decodeObject_field drv f kvs p r none hd
  refine ⟨hlog, fun f => ⟨fun hf => (hfield f).1 (fun h => absurd h hf), (hfield f).2,
    fun hf hn => ?_⟩, fun xs hx => ?_, fun hk => ?_, ?_⟩
  · rw [decodeObject_single drv f kvs .null p r none hd hn]
    exact decodeField_null drv f p hf
  · have h1 := decodeObject_single drv .Accessories kvs (.arr xs) p r none hd hx
    have h2 : r.Accessories = (decodeElems p.Accessories xs).1 := by
      simpa [Product.field, decodeField, decodeStrings] using h1
    rw [h2]
    exact ⟨decodeElems_length p.Accessories xs, fun i =>
      ⟨fun a ha => decodeElems_str p.Accessories xs i a ha,
        fun hnull => decodeElems_null p.Accessories xs i hnull⟩⟩
  · have hn : ∀ f, ProductField.Currency ≠ f → r.field f = p.field f := fun f hne =>
      (hfield f).2 (patchValue_none_of_other f .Currency kvs hk hne)
    have h1 := hn .ID (by decide)
    have h2 := hn .Name (by decide)
    have h3 := hn .Price (by decide)
    have h4 := hn .Discount (by decide)
    have h5 := hn .Vendor (by decide)
    have h6 := hn .Accessories (by decide)
    have h7 := hn .IsEssential (by decide)
    simp only [Product.field, BVal.oid.injEq, BVal.str.injEq, BVal.int.injEq, BVal.arr.injEq,
      BVal.bool.injEq] at h1 h2 h3 h4 h5 h6 h7
    exact ⟨h1, h2, h3, h4, h5, h6, h7⟩
  · intro auto st st2 w lg hw
    obtain ⟨q, hq, hst⟩ :=
      modifyProduct_stored drv auto st st2 id docID w (some (.obj kvs)) lg hid hw
    refine ⟨applySet q w, hst, ?_, rfl, rfl, rfl, rfl, rfl, rfl, fun hne => by simp [applySet, hne]⟩
    simp only [productCollection, matchesFilter_id] at hq
    cases hf : st.docs.find? (fun d => decide (d.ID = docID)) with
    | none => simp [hf] at hq
    | some q1 =>
      simp only [hf, SingleResult.doc.injEq] at hq
      subst hq
      simpa [applySet] using List.find?_some hf

/-- C1 at the update of the repository's test: the patch names `currency`
only; the currency becomes USD and the name stays. -/
theorem modifyProduct_overlay_witness :
    modifyProduct driverUnmarshalJSON "5f1c0a010203040506070809"
        (some (.obj [("currency", .str "USD")]))
        (logged (productCollection autoID)) (⟨[googletalk]⟩, [])
      = ((usd, none), (⟨[usd]⟩, [.findOne [("_id", .oid googletalk.ID)],
          .updateOne [("_id", .oid googletalk.ID)] (.set usd)]))
    ∧ usd.Currency = "USD" ∧ usd.Name = googletalk.Name :=
  ⟨by decide, by decide,
    ((modifyProduct_overlay driverUnmarshalJSON (productCollection autoID) ⟨[googletalk]⟩ ⟨[usd]⟩
      "5f1c0a010203040506070809" googletalk.ID googletalk usd [("currency", .str "USD")]
      [.findOne [("_id", .oid googletalk.ID)], .updateOne [("_id", .oid googletalk.ID)] (.set usd)]
      (by decide) (by decide) (by decide)).2.2.2.1 (by decide)).2.1⟩

/-- C1 as stated fails on the stored test product, whose accessories are
charger and subscription.  The patch `{"accessories":[null]}` succeeds and
the product returned and written has the accessories `[charger]`, which is
neither the value of the patch nor that of the stored product.  The patch
`{"price":null}` succeeds and the price is still 250.  The patch
`{"accessories":[]}` succeeds and returns a product without accessories,
while the document in the store keeps both. -/
theorem modifyProduct_overlay_counterexample :
    (modifyProduct driverUnmarshalJSON "5f1c0a010203040506070809"
        (some (.obj [("accessories", .arr [.null])]))
        (logged (productCollection autoID)) (⟨[googletalk]⟩, [])
      = ((chargerOnly, none), (⟨[chargerOnly]⟩, [.findOne [("_id", .oid googletalk.ID)],
          .updateOne [("_id", .oid googletalk.ID)] (.set chargerOnly)]))
      ∧ patchValue .Accessories [("accessories", .arr [.null])] = some (.arr [.null])
      ∧ sameValue (.arr [.null]) (chargerOnly.field .Accessories) = false
      ∧ chargerOnly.field .Accessories ≠ googletalk.field .Accessories)
    ∧ (modifyProduct driverUnmarshalJSON "5f1c0a010203040506070809"
        (some (.obj [("price", .null)]))
        (logged (productCollection autoID)) (⟨[googletalk]⟩, [])
      = ((googletalk, none), (⟨[googletalk]⟩, [.findOne [("_id", .oid googletalk.ID)],
          .updateOne [("_id", .oid googletalk.ID)] (.set googletalk)]))
      ∧ patchValue .Price [("price", .null)] = some .null
      ∧ sameValue .null (googletalk.field .Price) = false)
    ∧ (modifyProduct driverUnmarshalJSON "5f1c0a010203040506070809"
        (some (.obj [("accessories", .arr [])]))
        (logged (productCollection autoID)) (⟨[googletalk]⟩, [])
      = ((bare, none), (⟨[googletalk]⟩, [.findOne [("_id", .oid googletalk.ID)],
          .updateOne [("_id", .oid googletalk.ID)] (.set bare)]))
      ∧ bare.Accessories = [] ∧ googletalk.Accessories = ["charger", "subscription"]) :=
  ⟨⟨by decide, rfl, by decide, by decide⟩, ⟨by decide, rfl, by decide⟩,
    ⟨by decide, by decide, by decide⟩⟩

/-- C2 at a failing input: the stored product has identifier
5f1c0a010203040506070809 and the patch carries another `_id`.  The product
handed to `UpdateOne` and returned has the identifier of the patch; the
reference store refuses the change of `_id`, so the call ends in HTTP 500
and the stored document keeps its identifier. -/
theorem modifyProduct_patch_id :
    modifyProduct driverUnmarshalJSON "5f1c0a010203040506070809"
        (some (.obj [("_id", .str "5f1c0a010203040506070800")]))
        (logged (productCollection autoID)) (⟨[googletalk]⟩, [])
      = ((moved, some (NewHTTPError 500 "unable to update the product")),
          (⟨[googletalk]⟩, [.findOne [("_id", .oid googletalk.ID)],
            .updateOne [("_id", .oid googletalk.ID)] (.set moved)]))
    ∧ moved.ID ≠ googletalk.ID := by
  decide
/-! ### Registration (`insertUser`) -/

theorem matchesFilter_username (u : User) (e : String) :
    matchesFilter u.stored [("username", .str e)] = decide (u.Email = e) := by
  simp [matchesFilter, matchesEntry, User.stored, mapGet_cons]

theorem userCollection_FindOne (unique : Bool) (auto : Nat → ObjectID) (st : UserStore)
    (e : String) :
    (userCollection unique auto).FindOne st [("username", .str e)]
      = match st.docs.find? (fun d => decide (d.Email = e)) with
        | some d => (.doc d, st)
        | none => (.noDocuments, st) := by
  simp only [userCollection, matchesFilter_username]

theorem insertUser_existing (bc : Bcrypt) (unique : Bool) (auto : Nat → ObjectID) (u : User)
    (hne : u.Email ≠ "") (st : UserStore) (tr : List (Call User))
    (h : ∃ d ∈ st.docs, d.Email = u.Email) :
    ∃ d ∈ st.docs, d.Email = u.Email ∧
      insertUser bc u (logged (userCollection unique auto)) (st, tr)
        = ((d, some (NewHTTPError 400 "User already exists")),
            (st, tr ++ [.findOne [("username", .str u.Email)]])) := by
  cases hf : st.docs.find? (fun d => decide (d.Email = u.Email)) with
  | none =>
    rw [List.find?_eq_none] at hf
    obtain ⟨d, hd, he⟩ := h
    exact absurd (by simpa using he) (hf d hd)
  | some d =>
    have hmem := List.mem_of_find?_eq_some hf
    have hd : d.Email = u.Email := by simpa using List.find?_some hf
    refine ⟨d, hmem, hd, ?_⟩
    have hde : d.Email ≠ "" := by rw [hd]; exact hne
    simp only [insertUser, logged_FindOne, userCollection_FindOne, hf, SingleResult.Decode]
    simp [hde]
    rfl

theorem insertUser_plain_existing (bc : Bcrypt) (unique : Bool) (auto : Nat → ObjectID) (u : User)
    (hne : u.Email ≠ "") (st : UserStore) (h : ∃ d ∈ st.docs, d.Email = u.Email) :
    (insertUser bc u (userCollection unique auto) st).1.2
        = some (NewHTTPError 400 "User already exists")
      ∧ (insertUser bc u (userCollection unique auto) st).2 = st := by
  cases hf : st.docs.find? (fun d => decide (d.Email = u.Email)) with
  | none =>
    rw [List.find?_eq_none] at hf
    obtain ⟨d, hd, he⟩ := h
    exact absurd (by simpa using he) (hf d hd)
  | some d =>
    have hd : d.Email = u.Email := by simpa using List.find?_some hf
    have hde : d.Email ≠ "" := by rw [hd]; exact hne
    simp only [insertUser, userCollection_FindOne, hf, SingleResult.Decode]
    simp [hde]
    rfl

theorem insertUser_fresh (bc : Bcrypt) (unique : Bool) (auto : Nat → ObjectID) (u : User)
    (st : UserStore) (hash : String) (h : ∀ d ∈ st.docs, d.Email ≠ u.Email)
    (hh : bc.GenerateFromPassword u.Password 8 = .ok hash) :
    insertUser bc u (userCollection unique auto) st
      = ((⟨u.Email, "", false⟩, none), ⟨st.docs ++ [{ u with Password := hash }]⟩) := by
  have hf : st.docs.find? (fun d => decide (d.Email = u.Email)) = none := by
    rw [List.find?_eq_none]
    intro d hd
    simpa using h d hd
  have hdef : (default : User).Email = "" := rfl
  have hex : ¬ ∃ x ∈ st.docs, x.Email = u.Email := fun ⟨d, hd, he⟩ => h d hd he
  simp only [insertUser, userCollection_FindOne, hf, SingleResult.Decode, hh]
  simp [userCollection, hdef, hex]

theorem insertUser_state (bc : Bcrypt) (unique : Bool) (auto : Nat → ObjectID) (u : User)
    (st : UserStore) (h : ∀ d ∈ st.docs, d.Email ≠ u.Email) :
    (insertUser bc u (userCollection unique auto) st).2 = st
      ∨ ∃ hash, (insertUser bc u (userCollection unique auto) st).2
          = ⟨st.docs ++ [{ u with Password := hash }]⟩ := by
  cases hh : bc.GenerateFromPassword u.Password 8 with
  | ok hash =>
    right
    exact ⟨hash, by rw [insertUser_fresh bc unique auto u st hash h hh]⟩
  | error e =>
    left
    have hf : st.docs.find? (fun d => decide (d.Email = u.Email)) = none := by
      rw [List.find?_eq_none]
      intro d hd
      simpa using h d hd
    have hdef : (default : User).Email = "" := rfl
    simp only [insertUser, userCollection_FindOne, hf, SingleResult.Decode, hh]
    simp [hdef]

theorem insertUser_preserves (bc : Bcrypt) (unique : Bool) (auto : Nat → ObjectID) (u : User)
    (hne : u.Email ≠ "") (st : UserStore) (hu : UniqueEmails st) :
    UniqueEmails (insertUser bc u (userCollection unique auto) st).2 := by
  by_cases h : ∃ d ∈ st.docs, d.Email = u.Email
  · rw [(insertUser_plain_existing bc unique auto u hne st h).2]
    exact hu
  · have h1 : ∀ d ∈ st.docs, d.Email ≠ u.Email := fun d hd he => h ⟨d, hd, he⟩
    rcases insertUser_state bc unique auto u st h1 with he | ⟨hash, he⟩
    · rw [he]; exact hu
    · rw [he]
      unfold UniqueEmails at hu ⊢
      simp only [List.map_append, List.map_cons, List.map_nil]
      rw [List.nodup_append]
      refine ⟨hu, List.nodup_singleton _, ?_⟩
      intro a ha hb
      simp only [List.mem_singleton] at hb
      subst hb
      obtain ⟨d, hd, hde⟩ := List.mem_map.mp ha
      exact h1 d hd hde

theorem registerAll_preserves (bc : Bcrypt) (unique : Bool) (auto : Nat → ObjectID)
    (us : List User) (st : UserStore) (hne : ∀ v ∈ us, v.Email ≠ "") (hu : UniqueEmails st) :
    UniqueEmails (registerAll bc (userCollection unique auto) us st) := by
  induction us generalizing st with
  | nil => exact hu
  | cons v vs ih =>
    simp only [registerAll]
    exact ih _ (fun w hw => hne w (List.mem_cons_of_mem _ hw))
      (insertUser_preserves bc unique auto v (hne v (List.mem_cons_self _ _)) st hu)

/-- C9: for a user with a non-empty email, as every user has that `CreateUser`
passes on to `insertUser` (its validation requires the email before the
call), if the store holds a user with that email then
`insertUser` returns HTTP 400 'User already exists' after its lookup and
makes no insertion; hence any sequence of registrations with non-empty emails
keeps at most one user per email, with or without the unique index; and
registering an email that is not yet stored succeeds and a second
registration of the same email returns HTTP 400 and leaves the store as it
is. -/
theorem insertUser_unique_email (bc : Bcrypt) (unique : Bool) (auto : Nat → ObjectID) (u : User)
    (hne : u.Email ≠ "") :
    (∀ st : UserStore, (∃ d ∈ st.docs, d.Email = u.Email) →
        ∃ d ∈ st.docs, d.Email = u.Email ∧
          insertUser bc u (logged (userCollection unique auto)) (st, [])
            = ((d, some (NewHTTPError 400 "User already exists")),
                (st, [.findOne [("username", .str u.Email)]])))
      ∧ (∀ (us : List User) (st : UserStore), (∀ v ∈ us, v.Email ≠ "") → UniqueEmails st →
          UniqueEmails (registerAll bc (userCollection unique auto) us st))
      ∧ (∀ (st : UserStore) (hash : String) (u2 : User), (∀ d ∈ st.docs, d.Email ≠ u.Email) →
          bc.GenerateFromPassword u.Password 8 = .ok hash → u2.Email = u.Email →
          insertUser bc u (userCollection unique auto) st
              = ((⟨u.Email, "", false⟩, none), ⟨st.docs ++ [{ u with Password := hash }]⟩)
            ∧ (insertUser bc u2 (userCollection unique auto)
                ⟨st.docs ++ [{ u with Password := hash }]⟩).1.2
                = some (NewHTTPError 400 "User already exists")
            ∧ (insertUser bc u2 (userCollection unique auto)
                ⟨st.docs ++ [{ u with Password := hash }]⟩).2
                = ⟨st.docs ++ [{ u with Password := hash }]⟩) := by
  refine ⟨fun st h => ?_, fun us st hus hu => registerAll_preserves bc unique auto us st hus hu,
    fun st hash u2 hfresh hh he => ⟨insertUser_fresh bc unique auto u st hash hfresh hh, ?_⟩⟩
  · simpa using insertUser_existing bc unique auto u hne st [] h
  · apply insertUser_plain_existing bc unique auto u2 (by rw [he]; exact hne)
    exact ⟨{ u with Password := hash }, by simp, he.symm⟩

/-- C9 on the user of the tests: the first registration succeeds and stores
the user, the second is refused with HTTP 400. -/
theorem insertUser_unique_email_witness :
    insertUser toyBcrypt krunal (userCollection true autoID) ⟨[]⟩
        = ((⟨"krunal.shimpi@gmail.com", "", false⟩, none), ⟨[krunalStored]⟩)
      ∧ (insertUser toyBcrypt krunal (userCollection true autoID) ⟨[krunalStored]⟩).1.2
        = some (NewHTTPError 400 "User already exists") :=
  ⟨((insertUser_unique_email toyBcrypt true autoID krunal (by decide)).2.2 ⟨[]⟩ "$2a$08$abc12345"
      krunal (by decide) (by decide) rfl).1,
    ((insertUser_unique_email toyBcrypt true autoID krunal (by decide)).2.2 ⟨[]⟩ "$2a$08$abc12345"
      krunal (by decide) (by decide) rfl).2.1⟩

/-- C10: whenever `insertUser` succeeds, the hasher returned a hash for the
plaintext password, the calls to the store are the lookup by email followed
by a single insertion of a document with the user's email and that hash as
password, and the user returned has the email and an empty password; the
plaintext is stored only if the hasher returns it unchanged. -/
theorem insertUser_secrecy {σ : Type} (bc : Bcrypt) (u : User) (col : CollectionAPI σ User)
    (s s1 : σ) (r : User) (log : List (Call User))
    (h : insertUser bc u (logged col) (s, []) = ((r, none), (s1, log))) :
    ∃ hash, bc.GenerateFromPassword u.Password 8 = .ok hash
      ∧ log = [.findOne [("username", .str u.Email)], .insertOne ⟨u.Email, hash, u.IsAdmin⟩]
      ∧ r = ⟨u.Email, "", false⟩
      ∧ (hash ≠ u.Password → ∀ d, Call.insertOne d ∈ log → d.Password ≠ u.Password) := by
  simp only [insertUser, logged_FindOne] at h
  split at h
  · simp at h
  · split at h
    · simp at h
    · split at h
      · simp at h
      · rename_i hash hh
        simp only [logged_InsertOne] at h
        split at h
        · simp at h
        · rename_i hins
          simp only [Prod.mk.injEq] at hins h
          obtain ⟨⟨hr, -⟩, hs⟩ := h
          subst hs
          have hlog := (Prod.mk.inj hins.2).2
          simp only [List.nil_append, List.singleton_append] at hlog
          refine ⟨hash, hh, hlog.symm, hr.symm, ?_⟩
          intro hneq d hd
          rw [← hlog] at hd
          simp at hd
          subst hd
          exact hneq

/-- C10 on the user of the tests. -/
theorem insertUser_secrecy_witness :
    insertUser toyBcrypt krunal (logged (userCollection true autoID)) (⟨[]⟩, [])
        = ((⟨"krunal.shimpi@gmail.com", "", false⟩, none),
            (⟨[krunalStored]⟩, [.findOne [("username", .str "krunal.shimpi@gmail.com")],
              .insertOne krunalStored]))
      ∧ ∃ hash, toyBcrypt.GenerateFromPassword krunal.Password 8 = .ok hash
          ∧ [Call.findOne [("username", .str "krunal.shimpi@gmail.com")], .insertOne krunalStored]
              = [.findOne [("username", .str krunal.Email)], .insertOne ⟨krunal.Email, hash, krunal.IsAdmin⟩] :=
  ⟨by decide,
    (insertUser_secrecy toyBcrypt krunal (userCollection true autoID) ⟨[]⟩ ⟨[krunalStored]⟩
      ⟨"krunal.shimpi@gmail.com", "", false⟩
      [.findOne [("username", .str "krunal.shimpi@gmail.com")], .insertOne krunalStored]
      (by decide)).imp (fun _ hx => ⟨hx.1, hx.2.1⟩)⟩

/-! ### Authentication (`authenticateUser`) -/

theorem authenticateUser_store (bc : Bcrypt) (unique : Bool) (auto : Nat → ObjectID) (req : User)
    (st : UserStore) :
    authenticateUser bc req (userCollection unique auto) st
      = match st.docs.find? (fun d => decide (d.Email = req.Email)) with
        | none => ((default, some (NewHTTPError 404 "User does not exist")), st)
        | some d =>
          if isCredValid bc req.Password d.Password then ((⟨d.Email, "", false⟩, none), st)
          else ((d, some (NewHTTPError 401 "Credentials invalid")), st) := by
  simp only [authenticateUser, userCollection_FindOne]
  cases hf : st.docs.find? (fun d => decide (d.Email = req.Email)) with
  | none => rfl
  | some d =>
    simp only [SingleResult.Decode]
    cases hv : isCredValid bc req.Password d.Password
    · simp [hv]; rfl
    · simp [hv]

theorem find?_email_of_unique (docs : List User) (e : String) (d : User)
    (hu : (docs.map (fun u => u.Email)).Nodup) (hd : d ∈ docs) (he : d.Email = e) :
    docs.find? (fun x => decide (x.Email = e)) = some d := by
  induction docs with
  | nil => simp at hd
  | cons x xs ih =>
    simp only [List.map_cons, List.nodup_cons] at hu
    rcases List.mem_cons.mp hd with rfl | hd
    · simp [List.find?_cons, he]
    · have hx : x.Email ≠ e := by
        intro hxe
        apply hu.1
        rw [hxe, ← he]
        exact List.mem_map_of_mem (fun u => u.Email) hd
      simp [List.find?_cons, hx, ih hu.2 hd]

theorem find?_email_none (docs : List User) (e : String) (h : ∀ d ∈ docs, d.Email ≠ e) :
    docs.find? (fun x => decide (x.Email = e)) = none := by
  rw [List.find?_eq_none]
  intro d hd
  simpa using h d hd

theorem isCredValid_true (bc : Bcrypt) (pw hash : String)
    (h : bc.CompareHashAndPassword hash pw = none) : isCredValid bc pw hash = true := by
  simp [isCredValid, h]

theorem isCredValid_false (bc : Bcrypt) (pw hash : String) (e : GoError)
    (h : bc.CompareHashAndPassword hash pw = some e) : isCredValid bc pw hash = false := by
  simp [isCredValid, h]

theorem insertUser_store (bc : Bcrypt) (unique : Bool) (auto : Nat → ObjectID) (u : User)
    (st : UserStore) (r : User) (st1 : UserStore)
    (hcfg : unique = true ∨ u.Email ≠ "")
    (h : insertUser bc u (userCollection unique auto) st = ((r, none), st1)) :
    (∀ d ∈ st.docs, d.Email ≠ u.Email)
      ∧ ∃ hash, bc.GenerateFromPassword u.Password 8 = .ok hash
          ∧ st1 = ⟨st.docs ++ [{ u with Password := hash }]⟩ := by
  by_cases hex : ∃ d ∈ st.docs, d.Email = u.Email
  · exfalso
    by_cases hne : u.Email = ""
    · have hun : unique = true := by
        rcases hcfg with hc | hc
        · exact hc
        · exact absurd hne hc
      obtain ⟨d, hd, hde⟩ := hex
      cases hf : st.docs.find? (fun x => decide (x.Email = u.Email)) with
      | none =>
        rw [List.find?_eq_none] at hf
        exact absurd (by simpa using hde) (hf d hd)
      | some x =>
        have hx : x.Email = "" := by
          have := List.find?_some hf
          simp at this
          rw [this, hne]
        have hany : ∃ y ∈ st.docs, y.Email = u.Email := ⟨d, hd, hde⟩
        simp only [insertUser, userCollection_FindOne, hf, SingleResult.Decode] at h
        simp only [hx, ne_eq, not_true_eq_false, if_false] at h
        cases hg : bc.GenerateFromPassword u.Password 8 with
        | error e => simp [hg] at h
        | ok hash =>
          simp [hg, userCollection, hun, hany] at h
    · have := (insertUser_plain_existing bc unique auto u hne st hex).1
      rw [h] at this
      simp at this
  · have h1 : ∀ d ∈ st.docs, d.Email ≠ u.Email := fun d hd he => hex ⟨d, hd, he⟩
    refine ⟨h1, ?_⟩
    cases hg : bc.GenerateFromPassword u.Password 8 with
    | ok hash =>
      rw [insertUser_fresh bc unique auto u st hash h1 hg] at h
      exact ⟨hash, rfl, (Prod.mk.inj h).2.symm⟩
    | error e =>
      exfalso
      have hf := find?_email_none st.docs u.Email h1
      have hdef : (default : User).Email = "" := rfl
      simp only [insertUser, userCollection_FindOne, hf, SingleResult.Decode, hg] at h
      simp [hdef] at h

theorem authenticate_after_register (bc : Bcrypt) (unique : Bool) (auto : Nat → ObjectID)
    (u r : User) (st st1 : UserStore) (hcfg : unique = true ∨ u.Email ≠ "")
    (hv : ∀ hash, bc.GenerateFromPassword u.Password 8 = .ok hash →
      bc.CompareHashAndPassword hash u.Password = none)
    (h : insertUser bc u (userCollection unique auto) st = ((r, none), st1)) :
    authenticateUser bc u (userCollection unique auto) st1 = ((⟨u.Email, "", false⟩, none), st1) := by
  obtain ⟨h1, hash, hg, hst⟩ := insertUser_store bc unique auto u st r st1 hcfg h
  subst hst
  rw [authenticateUser_store]
  have hf : (st.docs ++ [{ u with Password := hash }]).find? (fun x => decide (x.Email = u.Email))
      = some { u with Password := hash } := by
    rw [List.find?_append, find?_email_none st.docs u.Email h1]
    simp [List.find?_cons]
  simp only [hf, isCredValid_true bc u.Password hash (hv hash hg), if_true]

theorem authenticateUser_logged {σ : Type} (bc : Bcrypt) (req : User) (col : CollectionAPI σ User)
    (s : σ) (tr : List (Call User)) :
    authenticateUser bc req (logged col) (s, tr)
      = match (col.FindOne s [("username", .str req.Email)]).1 with
        | .undecodable _ =>
          ((default, some (NewHTTPError 422 "Unable to decode retrieved user")),
            ((col.FindOne s [("username", .str req.Email)]).2,
              tr ++ [.findOne [("username", .str req.Email)]]))
        | .noDocuments =>
          ((default, some (NewHTTPError 404 "User does not exist")),
            ((col.FindOne s [("username", .str req.Email)]).2,
              tr ++ [.findOne [("username", .str req.Email)]]))
        | .doc d =>
          if isCredValid bc req.Password d.Password then
            ((⟨d.Email, "", false⟩, none),
              ((col.FindOne s [("username", .str req.Email)]).2,
                tr ++ [.findOne [("username", .str req.Email)]]))
          else
            ((d, some (NewHTTPError 401 "Credentials invalid")),
              ((col.FindOne s [("username", .str req.Email)]).2,
                tr ++ [.findOne [("username", .str req.Email)]])) := by
  simp only [authenticateUser, logged_FindOne]
  cases hf : (col.FindOne s [("username", .str req.Email)]).1 with
  | undecodable m => rfl
  | noDocuments => rfl
  | doc d =>
    simp only [SingleResult.Decode]
    cases hv : isCredValid bc req.Password d.Password
    · simp [hv]; rfl
    · simp [hv]

/-- C11, as amended: when the lookup by email finds no document,
`authenticateUser` fails with HTTP 404; when it finds a stored user and the
password does not verify against the stored hash (any error of the
comparison, a malformed hash included), it fails with HTTP 401 'Credentials
invalid'; when the password verifies it succeeds and returns a user that
carries only the stored email, with an empty password and `isadmin` false.
The lookup is its only call to the store.  On the reference store the three
cases are: no stored user with that email, a stored user whose hash does not
verify, a stored user whose hash verifies.  Authenticating with the
credentials of a user just registered through `insertUser` succeeds and
returns that email with an empty password, given that bcrypt verifies the
hashes it generates (and that the email is non-empty or the collection
carries its unique index). -/
theorem authenticateUser_outcomes {σ : Type} (bc : Bcrypt) (req : User)
    (col : CollectionAPI σ User) (s : σ) :
    ((col.FindOne s [("username", .str req.Email)]).1 = .noDocuments →
        authenticateUser bc req (logged col) (s, [])
          = ((default, some (NewHTTPError 404 "User does not exist")),
              ((col.FindOne s [("username", .str req.Email)]).2,
                [.findOne [("username", .str req.Email)]])))
      ∧ (∀ d e, (col.FindOne s [("username", .str req.Email)]).1 = .doc d →
          bc.CompareHashAndPassword d.Password req.Password = some e →
          authenticateUser bc req (logged col) (s, [])
            = ((d, some (NewHTTPError 401 "Credentials invalid")),
                ((col.FindOne s [("username", .str req.Email)]).2,
                  [.findOne [("username", .str req.Email)]])))
      ∧ (∀ d, (col.FindOne s [("username", .str req.Email)]).1 = .doc d →
          bc.CompareHashAndPassword d.Password req.Password = none →
          authenticateUser bc req (logged col) (s, [])
            = ((⟨d.Email, "", false⟩, none),
                ((col.FindOne s [("username", .str req.Email)]).2,
                  [.findOne [("username", .str req.Email)]])))
      ∧ (∀ (unique : Bool) (auto : Nat → ObjectID) (st : UserStore),
          ((∀ d ∈ st.docs, d.Email ≠ req.Email) →
            authenticateUser bc req (userCollection unique auto) st
              = ((default, some (NewHTTPError 404 "User does not exist")), st))
          ∧ (∀ d ∈ st.docs, UniqueEmails st → d.Email = req.Email →
              (∀ e, bc.CompareHashAndPassword d.Password req.Password = some e →
                authenticateUser bc req (userCollection unique auto) st
                  = ((d, some (NewHTTPError 401 "Credentials invalid")), st))
              ∧ (bc.CompareHashAndPassword d.Password req.Password = none →
                authenticateUser bc req (userCollection unique auto) st
                  = ((⟨req.Email, "", false⟩, none), st))))
      ∧ (∀ (unique : Bool) (auto : Nat → ObjectID) (st st1 : UserStore) (r : User),
          (unique = true ∨ req.Email ≠ "") →
          (∀ hash, bc.GenerateFromPassword req.Password 8 = .ok hash →
            bc.CompareHashAndPassword hash req.Password = none) →
          insertUser bc req (userCollection unique auto) st = ((r, none), st1) →
          authenticateUser bc req (userCollection unique auto) st1
            = ((⟨req.Email, "", false⟩, none), st1)) := by
  refine ⟨fun h => ?_, fun d e h hc => ?_, fun d h hc => ?_, fun unique auto st => ⟨fun h => ?_,
    fun d hd hu he => ⟨fun e hc => ?_, fun hc => ?_⟩⟩,
    fun unique auto st st1 r hcfg hv h => authenticate_after_register bc unique auto req r st st1 hcfg hv h⟩
  · rw [authenticateUser_logged, h]; rfl
  · rw [authenticateUser_logged, h]
    simp only [isCredValid_false bc req.Password d.Password e hc]
    rfl
  · rw [authenticateUser_logged, h]
    simp only [isCredValid_true bc req.Password d.Password hc]
    rfl
  · rw [authenticateUser_store, find?_email_none st.docs req.Email h]
  · rw [authenticateUser_store, find?_email_of_unique st.docs req.Email d hu hd he]
    simp only [isCredValid_false bc req.Password d.Password e hc]
    rfl
  · rw [authenticateUser_store, find?_email_of_unique st.docs req.Email d hu hd he]
    simp only [isCredValid_true bc req.Password d.Password hc, if_true, he]

/-- C11 on the user of the tests: registration followed by authentication
with the same credentials returns the email with an empty password. -/
theorem authenticateUser_outcomes_witness :
    insertUser toyBcrypt krunal (userCollection true autoID) ⟨[]⟩
        = ((⟨"krunal.shimpi@gmail.com", "", false⟩, none), ⟨[krunalStored]⟩)
      ∧ authenticateUser toyBcrypt krunal (userCollection true autoID) ⟨[krunalStored]⟩
        = ((⟨"krunal.shimpi@gmail.com", "", false⟩, none), ⟨[krunalStored]⟩) :=
  ⟨by decide,
    (authenticateUser_outcomes toyBcrypt krunal (userCollection true autoID) ⟨[]⟩).2.2.2.2
      true autoID ⟨[]⟩ ⟨[krunalStored]⟩ ⟨"krunal.shimpi@gmail.com", "", false⟩ (Or.inl rfl)
      (fun hash hg => by
        have : hash = "$2a$08$abc12345" := by
          simp [toyBcrypt, krunal] at hg
          exact hg.symm
        subst this
        decide)
      (by decide)⟩

/-- C11, as stated, fails for a stored administrator: the password verifies
and `authenticateUser` succeeds, but the user it returns is not the stored
entity with the password cleared, since `isadmin` is cleared as well. -/
theorem authenticateUser_outcomes_counterexample :
    authenticateUser toyBcrypt rootRequest (userCollection true autoID) ⟨[rootStored]⟩
        = ((⟨"root@tronics.io", "", false⟩, none), ⟨[rootStored]⟩)
      ∧ (⟨"root@tronics.io", "", false⟩ : User) ≠ { rootStored with Password := "" } := by
  decide

/-! ### The authorization gate (`adminMiddleware`) -/

theorem splitChars_no_sep (sep : Char) (cs cur : List Char) (h : sep ∉ cs) :
    splitChars sep cs cur = [String.mk (cur.reverse ++ cs)] := by
  induction cs generalizing cur with
  | nil => simp [splitChars]
  | cons c cs ih =>
    have hc : c ≠ sep := fun e => h (by simp [e])
    have hcs : sep ∉ cs := fun e => h (by simp [e])
    simp [splitChars, hc, ih (c :: cur) hcs]

theorem adminMiddleware_no_space {τ : Type} (jwt : JWT) (cfg : Properties) (next : HandlerFunc τ)
    (c : Context) (w : τ) (h : Char.ofNat 32 ∉ c.AuthToken.data) :
    adminMiddleware jwt cfg next c w = .panicked "runtime error: index out of range [1]" := by
  simp [adminMiddleware, stringsSplit, splitChars_no_sep _ _ _ h]

theorem adminMiddleware_cases {τ : Type} (jwt : JWT) (cfg : Properties) (next : HandlerFunc τ)
    (c : Context) (w : τ) (token : String)
    (ht : (stringsSplit c.AuthToken (Char.ofNat 32))[1]? = some token) :
    (∀ e, jwt.ParseWithClaims token cfg.JwtTokenSecret = .error e →
        adminMiddleware jwt cfg next c w
          = .ret (some (NewHTTPError 500 "Unable to parse token"), w))
      ∧ (∀ claims, jwt.ParseWithClaims token cfg.JwtTokenSecret = .ok claims →
          (mapGet claims "authorized" = some (.bool true) →
              adminMiddleware jwt cfg next c w = next c w)
          ∧ (mapGet claims "authorized" = some (.bool false) →
              adminMiddleware jwt cfg next c w
                = .ret (some (NewHTTPError 403 "Not authorized"), w))
          ∧ ((∀ b, mapGet claims "authorized" ≠ some (.bool b)) →
              adminMiddleware jwt cfg next c w
                = .panicked "interface conversion: interface is not bool")) := by
  refine ⟨fun e he => ?_, fun claims hc => ⟨fun ha => ?_, fun ha => ?_, fun ha => ?_⟩⟩
  · simp only [adminMiddleware, ht, he]; rfl
  · simp only [adminMiddleware, ht, hc, ha]; rfl
  · simp only [adminMiddleware, ht, hc, ha]; rfl
  · simp only [adminMiddleware, ht, hc]

/-- C12 at a failing input the route can receive: the header carries the
scheme `Bearer`, a tab in place of the space and a token that verifies with
`authorized` true.  It lacks the prefix `Bearer ` of the scheme and a space.
The JWT middleware, which runs first on `DELETE /products/:id`, lets it
through, since it skips the byte after the scheme whatever that byte is;
`adminMiddleware` splits the header at the space, gets a single piece and
panics on indexing the pieces at 1, where an authorization error is due.
Headers that are empty, end after the scheme or carry another scheme are
answered with HTTP 400 by the JWT middleware and do not reach
`adminMiddleware`. -/
theorem adminMiddleware_malformed_header :
    deleteRoute toyJWT defaultProperties countingHandler ⟨tabHeader⟩ 0
        = .panicked "runtime error: index out of range [1]"
      ∧ jwtMiddleware toyJWT defaultProperties countingHandler ⟨tabHeader⟩ 0 = .ret (none, 1)
      ∧ adminMiddleware toyJWT defaultProperties countingHandler ⟨tabHeader⟩ 0
        = .panicked "runtime error: index out of range [1]"
      ∧ deleteRoute toyJWT defaultProperties countingHandler ⟨""⟩ 0
        = .ret (some (NewHTTPError 400 "missing or malformed jwt"), 0)
      ∧ deleteRoute toyJWT defaultProperties countingHandler ⟨"Bearer"⟩ 0
        = .ret (some (NewHTTPError 400 "missing or malformed jwt"), 0)
      ∧ deleteRoute toyJWT defaultProperties countingHandler
          ⟨"Basic abrakadabra.admin.root@tronics.io"⟩ 0
        = .ret (some (NewHTTPError 400 "missing or malformed jwt"), 0) := by
  decide

/-- C13 at failing inputs: the token verifies but its claims carry no
`authorized` entry, or one that is a string; the type assertion panics where
the claim expects HTTP 403.  A verified token with `authorized` true reaches
the wrapped operation once, and one with `authorized` false is refused with
HTTP 403. -/
theorem adminMiddleware_unchecked_claim :
    adminMiddleware toyJWT defaultProperties countingHandler ⟨"Bearer abrakadabra.noclaim"⟩ 0
        = .panicked "interface conversion: interface is not bool"
      ∧ adminMiddleware toyJWT defaultProperties countingHandler ⟨"Bearer abrakadabra.textclaim"⟩ 0
        = .panicked "interface conversion: interface is not bool"
      ∧ adminMiddleware toyJWT defaultProperties countingHandler
          ⟨"Bearer abrakadabra.admin.root@tronics.io"⟩ 0 = .ret (none, 1)
      ∧ adminMiddleware toyJWT defaultProperties countingHandler
          ⟨"Bearer abrakadabra.plain.krunal.shimpi@gmail.com"⟩ 0
        = .ret (some (NewHTTPError 403 "Not authorized"), 0) := by
  decide

/-! ### Validation of the merged product (`modifyProduct`) -/

theorem accepted_false_iff (p : Product) : p.accepted = false ↔ p.validate ≠ [] := by
  simp [Product.accepted, List.isEmpty_iff]

theorem modifyProduct_merged {σ : Type} (drv : Driver) (col : CollectionAPI σ Product) (s : σ)
    (id : String)
    (docID : ObjectID) (p merged : Product) (body : Option JSON)
    (hid : ObjectIDFromHex id = some docID)
    (hfind : (col.FindOne s [("_id", .oid docID)]).1 = .doc p)
    (hdec : decodeBody drv body p = (merged, none)) :
    modifyProduct drv id body (logged col) (s, [])
      = if merged.validate ≠ [] then
          ((merged, some (NewHTTPError 400 "unable to validate the request payload")),
            ((col.FindOne s [("_id", .oid docID)]).2, [.findOne [("_id", .oid docID)]]))
        else
          match (col.UpdateOne (col.FindOne s [("_id", .oid docID)]).2 [("_id", .oid docID)]
              (.set merged)).1 with
          | .error _ =>
            ((merged, some (NewHTTPError 500 "unable to update the product")),
              ((col.UpdateOne (col.FindOne s [("_id", .oid docID)]).2 [("_id", .oid docID)]
                  (.set merged)).2,
                [.findOne [("_id", .oid docID)], .updateOne [("_id", .oid docID)] (.set merged)]))
          | .ok _ =>
            ((merged, none),
              ((col.UpdateOne (col.FindOne s [("_id", .oid docID)]).2 [("_id", .oid docID)]
                  (.set merged)).2,
                [.findOne [("_id", .oid docID)], .updateOne [("_id", .oid docID)] (.set merged)])) := by
  simp only [modifyProduct, hid, logged_FindOne, hfind, SingleResult.Decode, hdec]
  by_cases hv : merged.validate ≠ []
  · rw [if_pos hv, if_pos hv]; rfl
  · rw [if_neg hv, if_neg hv]
    simp only [logged_UpdateOne]
    generalize col.UpdateOne (col.FindOne s [("_id", .oid docID)]).2 [("_id", .oid docID)]
      (.set merged) = upd
    rcases upd with ⟨e | r, s2⟩ <;> rfl

/-- C14: for an identifier that parses, a stored product p and a patch that
decodes onto p into the merged product, whatever `ObjectID.UnmarshalJSON` of
the driver makes of a value of `_id`, `modifyProduct` answers HTTP 400
exactly when the validator rejects the merged product, and then its only call
to the store is the lookup (no `UpdateOne`); when the validator accepts the
merged product, `UpdateOne` is called with the merged product in `$set` and
the call succeeds whenever the store accepts the update.  The merged product
takes from p every field the patch does not name, so required fields that the
patch omits are judged on the values p supplies, and it has the value of the
patch in every field the patch names with a value of the field's type (for
`_id`, under a driver that reads 24 hexadecimal digits as the identifier). -/
theorem modifyProduct_validates_merged {σ : Type} (drv : Driver) (col : CollectionAPI σ Product)
    (s : σ)
    (id : String) (docID : ObjectID) (p merged : Product) (body : Option JSON)
    (hid : ObjectIDFromHex id = some docID)
    (hfind : (col.FindOne s [("_id", .oid docID)]).1 = .doc p)
    (hdec : decodeBody drv body p = (merged, none)) :
    (((modifyProduct drv id body (logged col) (s, [])).1.2).map (fun e => e.Code) = some 400
        ↔ merged.accepted = false)
      ∧ (merged.accepted = false →
          modifyProduct drv id body (logged col) (s, [])
            = ((merged, some (NewHTTPError 400 "unable to validate the request payload")),
                ((col.FindOne s [("_id", .oid docID)]).2, [.findOne [("_id", .oid docID)]])))
      ∧ (merged.accepted = true →
          (modifyProduct drv id body (logged col) (s, [])).2.2
              = [.findOne [("_id", .oid docID)], .updateOne [("_id", .oid docID)] (.set merged)]
            ∧ ∀ r, (col.UpdateOne (col.FindOne s [("_id", .oid docID)]).2 [("_id", .oid docID)]
                (.set merged)).1 = .ok r →
              (modifyProduct drv id body (logged col) (s, [])).1 = (merged, none))
      ∧ (∀ kvs, body = some (.obj kvs) → ∀ f,
          (patchValue f kvs = none → merged.field f = p.field f)
            ∧ ((f = .ID → drv.ReadsHex) →
                ∀ v x, patchValue f kvs = some v → typedValue f v = some x → merged.field f = x)) := by
  have hrun := modifyProduct_merged drv col s id docID p merged body hid hfind hdec
  generalize col.UpdateOne (col.FindOne s [("_id", .oid docID)]).2 [("_id", .oid docID)]
    (.set merged) = upd at hrun ⊢
  refine ⟨?_, ?_, ?_, ?_⟩
  · rw [hrun, accepted_false_iff]
    by_cases hv : merged.validate ≠ []
    · rw [if_pos hv]
      exact ⟨fun _ => hv, fun _ => rfl⟩
    · rw [if_neg hv]
      constructor
      · intro h
        exfalso
        rcases upd with ⟨e | r, s2⟩
        · have h1 : some 500 = some 400 := h
          exact absurd h1 (by decide)
        · have h1 : (none : Option Nat) = some 400 := h
          exact absurd h1 (by decide)
      · intro h; exact absurd h hv
  · intro ha
    rw [hrun, if_pos ((accepted_false_iff merged).mp ha)]
  · intro ha
    have hv : ¬ merged.validate ≠ [] := by
      intro h
      rw [(accepted_false_iff merged).mpr h] at ha
      exact Bool.noConfusion ha
    rw [hrun, if_neg hv]
    refine ⟨?_, fun r hr => ?_⟩
    · rcases upd with ⟨e | r, s2⟩ <;> rfl
    · rcases upd with ⟨e | r0, s2⟩
      · simp at hr
      · rfl
  · intro kvs hb f
    subst hb
    have := decodeObject_field drv f kvs p merged none hdec
    exact ⟨this.2, this.1⟩

/-- C14 on the stored test product: a patch that names only `currency`
succeeds, the name, price and vendor being those of the stored product; a
patch that sets `_id` to the 12-byte text `"abcdefghij"` and the price to 0
decodes, and is answered with HTTP 400 after the lookup alone, price 0 failing
the validator. -/
theorem modifyProduct_validates_merged_witness :
    ((modifyProduct driverUnmarshalJSON "5f1c0a010203040506070809"
        (some (.obj [("currency", .str "USD")]))
        (logged (productCollection autoID)) (⟨[googletalk]⟩, [])).1 = (usd, none)
      ∧ usd.accepted = true)
    ∧ modifyProduct driverUnmarshalJSON "5f1c0a010203040506070809"
        (some (.obj [("_id", .str "abcdefghij"), ("price", .num 0)]))
        (logged (productCollection autoID)) (⟨[googletalk]⟩, [])
      = (({ googletalk with ID := rawID, Price := 0 },
            some (NewHTTPError 400 "unable to validate the request payload")),
          (⟨[googletalk]⟩, [.findOne [("_id", .oid googletalk.ID)]])) :=
  ⟨⟨((modifyProduct_validates_merged driverUnmarshalJSON (productCollection autoID) ⟨[googletalk]⟩
      "5f1c0a010203040506070809" googletalk.ID googletalk usd
      (some (.obj [("currency", .str "USD")])) (by decide) (by decide) (by decide)).2.2.1
      (by decide)).2 ⟨1, 1⟩ (by decide),
    by decide⟩,
    (modifyProduct_validates_merged driverUnmarshalJSON (productCollection autoID) ⟨[googletalk]⟩
      "5f1c0a010203040506070809" googletalk.ID googletalk { googletalk with ID := rawID, Price := 0 }
      (some (.obj [("_id", .str "abcdefghij"), ("price", .num 0)])) (by decide) (by decide)
      (by decide)).2.1 (by decide)⟩
/-! ### Token issuance (`AuthnUser`) -/

theorem claims_authorized (u : User) (now : Int) :
    mapGet (u.claims now) "authorized" = some (.bool u.IsAdmin) := by
  simp [User.claims, mapSet, mapGet]

theorem find?_sameUpToAdmin (e : String) (docs1 docs2 : List User)
    (h : docs1.map (fun d => (d.Email, d.Password)) = docs2.map (fun d => (d.Email, d.Password))) :
    (docs1.find? (fun d => decide (d.Email = e))).map (fun d => (d.Email, d.Password))
      = (docs2.find? (fun d => decide (d.Email = e))).map (fun d => (d.Email, d.Password)) := by
  induction docs1 generalizing docs2 with
  | nil =>
    cases docs2 with
    | nil => rfl
    | cons b bs => simp at h
  | cons a as ih =>
    cases docs2 with
    | nil => simp at h
    | cons b bs =>
      simp only [List.map_cons, List.cons.injEq, Prod.mk.injEq] at h
      obtain ⟨⟨he, hp⟩, ht⟩ := h
      by_cases ha : a.Email = e
      · have hb : b.Email = e := by rw [← he]; exact ha
        simp [List.find?_cons, ha, hb, hp, ← he]
      · have hb : ¬ b.Email = e := by rw [← he]; exact ha
        simp only [List.find?_cons, ha, hb, decide_False]
        exact ih bs ht

theorem authenticateUser_sameUpToAdmin (bc : Bcrypt) (unique : Bool) (auto : Nat → ObjectID)
    (req : User) (st1 st2 : UserStore) (h : SameUpToAdmin st1 st2) :
    (authenticateUser bc req (userCollection unique auto) st1).1.2
        = (authenticateUser bc req (userCollection unique auto) st2).1.2
      ∧ ((authenticateUser bc req (userCollection unique auto) st1).1.2 = none →
          (authenticateUser bc req (userCollection unique auto) st1).1.1
            = (authenticateUser bc req (userCollection unique auto) st2).1.1) := by
  have hf := find?_sameUpToAdmin req.Email st1.docs st2.docs h
  rw [authenticateUser_store, authenticateUser_store]
  cases h1 : st1.docs.find? (fun d => decide (d.Email = req.Email)) with
  | none =>
    cases h2 : st2.docs.find? (fun d => decide (d.Email = req.Email)) with
    | none => exact ⟨rfl, fun _ => rfl⟩
    | some b => simp [h1, h2] at hf
  | some a =>
    cases h2 : st2.docs.find? (fun d => decide (d.Email = req.Email)) with
    | none => simp [h1, h2] at hf
    | some b =>
      simp only [h1, h2, Option.map_some', Option.some.injEq, Prod.mk.injEq] at hf
      obtain ⟨he, hp⟩ := hf
      simp only [he, hp]
      cases hv : isCredValid bc req.Password b.Password
      · simp
      · simp

theorem authenticateUser_success {σ : Type} (bc : Bcrypt) (req r : User)
    (col : CollectionAPI σ User) (s s1 : σ)
    (h : authenticateUser bc req col s = ((r, none), s1)) :
    r.Password = "" ∧ r.IsAdmin = false := by
  simp only [authenticateUser] at h
  split at h
  · simp at h
  · simp at h
  · split at h
    · simp at h
    · simp only [Prod.mk.injEq, and_true] at h
      rw [← h.1]
      exact ⟨rfl, rfl⟩

/-- C15: two user stores that hold the same emails and passwords document by
document, and so differ at most in `isadmin` flags (that of the user being
authenticated included), get the same response from `AuthnUser` for the same
request at the same clock time, token header included.  Whenever `AuthnUser`
sets the token header, on any collection, the token is the signature of the
claim set of a user that carries only an email, and the `authorized` entry of
that claim set is false. -/
theorem AuthnUser_token_ignores_admin {σ : Type} (rt : Runtime) (bound : Except GoError User)
    (col : CollectionAPI σ User) (s : σ) :
    (∀ (unique : Bool) (auto : Nat → ObjectID) (st1 st2 : UserStore), SameUpToAdmin st1 st2 →
        (AuthnUser rt bound (userCollection unique auto) st1).1
          = (AuthnUser rt bound (userCollection unique auto) st2).1)
      ∧ (∀ header, (AuthnUser rt bound col s).1.AuthToken = some header →
          ∃ email token, header = "Bearer " ++ token
            ∧ rt.jwt.SignedString (User.claims ⟨email, "", false⟩ rt.now) rt.prop.JwtTokenSecret
                = .ok token
            ∧ mapGet (User.claims ⟨email, "", false⟩ rt.now) "authorized" = some (.bool false)) := by
  refine ⟨fun unique auto st1 st2 hsame => ?_, fun header hh => ?_⟩
  · cases bound with
    | error e => rfl
    | ok user =>
      simp only [AuthnUser]
      by_cases hv : user.validate rt.isEmail ≠ []
      · rw [if_pos hv, if_pos hv]
      · rw [if_neg hv, if_neg hv]
        have hsa := authenticateUser_sameUpToAdmin rt.bcrypt unique auto user st1 st2 hsame
        rcases h1 : authenticateUser rt.bcrypt user (userCollection unique auto) st1
          with ⟨⟨u1, e1⟩, t1⟩
        rcases h2 : authenticateUser rt.bcrypt user (userCollection unique auto) st2
          with ⟨⟨u2, e2⟩, t2⟩
        rw [h1, h2] at hsa
        simp only at hsa
        obtain ⟨hea, hua⟩ := hsa
        subst hea
        cases e1 with
        | some err => rfl
        | none =>
          have := hua rfl
          subst this
          simp only
          cases u1.createToken rt.jwt rt.prop rt.now <;> rfl
  · cases bound with
    | error e => simp [AuthnUser] at hh
    | ok user =>
      simp only [AuthnUser] at hh
      split at hh
      · simp at hh
      · split at hh
        · simp at hh
        · rename_i u1 s1 hau
          have hshape := authenticateUser_success rt.bcrypt user u1 col s s1 hau
          split at hh
          · simp at hh
          · rename_i token htok
            simp only [Option.some.injEq] at hh
            refine ⟨u1.Email, token, hh.symm, ?_, claims_authorized _ _⟩
            have hu : u1 = ⟨u1.Email, "", false⟩ := by
              cases u1
              simp only at hshape
              simp [hshape.1, hshape.2]
            rw [← hu]
            simp only [User.createToken] at htok
            split at htok
            · simp at htok
            · rename_i tk hs
              simp only [Except.ok.injEq] at htok
              rw [← htok]; exact hs

/-- C15 on an administrator: stored with or without the admin flag, the
account receives the same token, whose `authorized` claim is false. -/
theorem AuthnUser_token_ignores_admin_witness :
    (AuthnUser toyRuntime (.ok rootRequest) (userCollection true autoID) ⟨[rootStored]⟩).1
        = (AuthnUser toyRuntime (.ok rootRequest) (userCollection true autoID) ⟨[rootPlain]⟩).1
      ∧ (AuthnUser toyRuntime (.ok rootRequest) (userCollection true autoID) ⟨[rootStored]⟩).1
        = ⟨200, some "Bearer abrakadabra.plain.root@tronics.io",
            .user ⟨"root@tronics.io", "", false⟩⟩ :=
  ⟨(AuthnUser_token_ignores_admin toyRuntime (.ok rootRequest) (userCollection true autoID)
      ⟨[rootStored]⟩).1 true autoID ⟨[rootStored]⟩ ⟨[rootPlain]⟩ (by unfold SameUpToAdmin; decide),
    by decide⟩

end Tronics
